import Mathlib

/-!
Verification development for the hospital bulk-CSV ETL pipeline
(`hospital_neo4j_etl/src/hospital_bulk_csv_write.py`).

The pipeline issues a fixed sequence of Cypher statements against a
property-graph store.  We shallowly embed the graph store state and the
exact statements the pipeline runs: uniqueness-constraint creation
(`CREATE CONSTRAINT IF NOT EXISTS ... REQUIRE n.id IS UNIQUE`), the six
`LOAD CSV ... MERGE` node statements, the five `MATCH/MATCH/MERGE`
relationship statements, the `EMPLOYS` inference statement, and the
job-level retry decorator `@retry(tries=3, delay=10)`.

Cypher semantics embedded here (the parts these statements rely on):
- `MERGE (n:L {props})` matches nodes carrying label `L` and all the
  listed property values; when nothing matches it creates a node with
  exactly those properties.  A `null` value inside a `MERGE` pattern is
  an error that fails the whole statement; a failed statement rolls back
  (auto-commit transactions - one per `session.run`).
- Creation checks declared uniqueness constraints and fails the
  statement on a duplicate value of a constrained property.
- `MATCH (n:L {props})` with a `null` property value matches nothing.
- `SET x.k = v` overwrites the property; `SET x.k = null` removes it.
- `toInteger`/`toFloat` on an unparseable string yield `null`; `toFloat`
  is modelled with exact rationals (the record values the spec exercises
  are exactly representable, so no floating-point rounding is material).
-/

set_option maxHeartbeats 1000000

namespace Etl

/-- A property value stored on a node or an edge. -/
inductive PropVal where
  | int : Int → PropVal
  | str : String → PropVal
  | rat : Rat → PropVal
deriving DecidableEq, Repr

def PropVal.beq : PropVal → PropVal → Bool
  | .int a, .int b => a == b
  | .str a, .str b => a == b
  | .rat a, .rat b => a == b
  | _, _ => false

instance : BEq PropVal := ⟨PropVal.beq⟩

theorem PropVal.beq_iff (a b : PropVal) : (a == b) = true ↔ a = b := by
  cases a <;> cases b <;>
    simp [show (BEq.beq : PropVal → PropVal → Bool) = PropVal.beq from rfl, PropVal.beq]

instance : LawfulBEq PropVal where
  eq_of_beq h := (PropVal.beq_iff _ _).mp h
  rfl := (PropVal.beq_iff _ _).mpr rfl

/-- A CSV record: column name to raw text, as handed to the query by
`LOAD CSV WITH HEADERS`.  A missing column reads as `null` (`none`). -/
abbrev Row := List (String × String)

abbrev Props := List (String × PropVal)

def getCol (r : Row) (k : String) : Option String :=
  (r.find? (fun kv => kv.fst == k)).map (·.snd)

def lookupProp (ps : Props) (k : String) : Option PropVal :=
  (ps.find? (fun kv => kv.fst == k)).map (·.snd)

def charDigit (c : Char) : Option Nat :=
  if c.isDigit then some (c.toNat - 48) else none

def digitsGo : List Char → Nat → Option Nat
  | [], acc => some acc
  | c :: cs, acc =>
    match charDigit c with
    | none => none
    | some d => digitsGo cs (acc * 10 + d)

def parseNatDigits : List Char → Option Nat
  | [] => none
  | cs => digitsGo cs 0

def parseIntChars : List Char → Option Int
  | '-' :: cs => (parseNatDigits cs).map (fun n => -(n : Int))
  | '+' :: cs => (parseNatDigits cs).map (fun n => (n : Int))
  | cs => (parseNatDigits cs).map (fun n => (n : Int))

/-- Embedding of Cypher `toInteger` on a string: optional sign plus
decimal digits; anything else converts to `null`. -/
def parseIntString (s : String) : Option Int := parseIntChars s.toList

def splitOnDot : List Char → List (List Char)
  | [] => [[]]
  | c :: cs =>
    let rest := splitOnDot cs
    if c == '.' then [] :: rest
    else
      match rest with
      | [] => [[c]]
      | h :: t => (c :: h) :: t

/-- Digits with at most one decimal point, read as a numerator over a
power-of-ten denominator. -/
def parseDecParts (cs : List Char) : Option (Nat × Nat) :=
  match splitOnDot cs with
  | [a] => (parseNatDigits a).map (fun n => (n, 1))
  | [a, b] =>
    match parseNatDigits a, parseNatDigits b with
    | some ia, some fb => some (ia * 10 ^ b.length + fb, 10 ^ b.length)
    | _, _ => none
  | _ => none

def parseDecChars : List Char → Option Rat
  | '-' :: cs => (parseDecParts cs).map (fun p => mkRat (-(p.fst : Int)) p.snd)
  | '+' :: cs => (parseDecParts cs).map (fun p => mkRat (p.fst : Int) p.snd)
  | cs => (parseDecParts cs).map (fun p => mkRat (p.fst : Int) p.snd)

/-- Embedding of Cypher `toFloat` on a string, with exact rational
arithmetic standing in for the store's float type. -/
def parseDecimalString (s : String) : Option Rat := parseDecChars s.toList

def toIntegerOpt (os : Option String) : Option Int := os.bind parseIntString

def toFloatOpt (os : Option String) : Option Rat := os.bind parseDecimalString

/-- A stored node: an internal identity, a label and a property map. -/
structure Node where
  nodeId : Nat
  label : String
  props : Props
deriving DecidableEq, Repr

/-- A stored directed edge between two internal node identities. -/
structure Edge where
  src : Nat
  tgt : Nat
  relType : String
  props : Props
deriving DecidableEq, Repr

/-- The state of the target store. -/
structure Graph where
  nextId : Nat
  nodes : List Node
  edges : List Edge
  constraints : List (String × String)
deriving DecidableEq, Repr

def emptyGraph : Graph := ⟨0, [], [], []⟩

/-- `SET x.k = v`: overwrite in place or append; setting `null` removes. -/
def setOne (ps : Props) (k : String) : Option PropVal → Props
  | some v =>
    if ps.any (fun kv => kv.fst == k) then
      ps.map (fun kv => if kv.fst == k then (k, v) else kv)
    else ps ++ [(k, v)]
  | none => ps.filter (fun kv => kv.fst != k)

def applySets (ps : Props) : List (String × Option PropVal) → Props
  | [] => ps
  | kv :: rest => applySets (setOne ps kv.fst kv.snd) rest

def patMatches (ps : Props) (pat : Props) : Bool :=
  pat.all (fun kv => lookupProp ps kv.fst == some kv.snd)

def nodeMatches (n : Node) (label : String) (pat : Props) : Bool :=
  n.label == label && patMatches n.props pat

def anyNodeMatch (g : Graph) (label : String) (pat : Props) : Bool :=
  g.nodes.any (fun n => nodeMatches n label pat)

/-- A `MERGE` pattern value list is only usable when no value is `null`. -/
def liftPattern : List (String × Option PropVal) → Option Props
  | [] => some []
  | (_, none) :: _ => none
  | (k, some v) :: rest => (liftPattern rest).map (fun ps => (k, v) :: ps)

/-- Would creating a node with label `label` and properties `pat` break a
declared uniqueness constraint? -/
def violatesConstraint (g : Graph) (label : String) (pat : Props) : Bool :=
  g.constraints.any (fun c =>
    c.fst == label &&
      match lookupProp pat c.snd with
      | some v => g.nodes.any (fun n => n.label == label && lookupProp n.props c.snd == some v)
      | none => false)

inductive LoadErr where
  | nullMergeKey
  | constraintViolation
  | storeUnavailable
deriving DecidableEq, Repr

/-- The shape of one node-kind load statement.  Every node `MERGE` in the
source leads with `id: toInteger(row.<idField>)`; `attrProps` are the
further properties inside the `MERGE` pattern itself, `setProps` the
properties written by a trailing `SET` clause. -/
structure NodeSpec where
  label : String
  idField : String
  attrProps : List (String × (Row → Option PropVal))
  setProps : List (String × (Row → Option PropVal))

def strCol (k : String) : Row → Option PropVal := fun r => (getCol r k).map PropVal.str

def intCol (k : String) : Row → Option PropVal := fun r => (toIntegerOpt (getCol r k)).map PropVal.int

def mergePatOf (spec : NodeSpec) (r : Row) : List (String × Option PropVal) :=
  ("id", (toIntegerOpt (getCol r spec.idField)).map PropVal.int)
    :: spec.attrProps.map (fun kf => (kf.fst, kf.snd r))

def setsOf (spec : NodeSpec) (r : Row) : List (String × Option PropVal) :=
  spec.setProps.map (fun kf => (kf.fst, kf.snd r))

/-- One CSV record through a node `MERGE` (plus optional `SET`). -/
def mergeNodeRow (g : Graph) (spec : NodeSpec) (r : Row) : Except LoadErr Graph :=
  match liftPattern (mergePatOf spec r) with
  | none => .error .nullMergeKey
  | some pat =>
    if anyNodeMatch g spec.label pat then
      .ok { g with nodes := g.nodes.map (fun n =>
              if nodeMatches n spec.label pat then
                { n with props := applySets n.props (setsOf spec r) }
              else n) }
    else if violatesConstraint g spec.label pat then .error .constraintViolation
    else .ok { g with nextId := g.nextId + 1,
                      nodes := g.nodes ++ [⟨g.nextId, spec.label, applySets pat (setsOf spec r)⟩] }

/-- One node-kind `LOAD CSV ... MERGE` statement: processes the records
in order; the first failing record fails the whole statement (and the
auto-commit transaction it runs in rolls back). -/
def loadNodeRows (spec : NodeSpec) : List Row → Graph → Except LoadErr Graph
  | [], g => .ok g
  | r :: rs, g =>
    match mergeNodeRow g spec r with
    | .error e => .error e
    | .ok g' => loadNodeRows spec rs g'

def hospitalSpec : NodeSpec :=
  ⟨"Hospital", "hospital_id",
   [("name", strCol "hospital_name"), ("state_name", strCol "hospital_state")], []⟩

def payerSpec : NodeSpec := ⟨"Payer", "payer_id", [("name", strCol "payer_name")], []⟩

def physicianSpec : NodeSpec :=
  ⟨"Physician", "physician_id",
   [("name", strCol "physician_name"), ("dob", strCol "physician_dob"),
    ("grad_year", strCol "physician_grad_year"), ("school", strCol "medical_school")], []⟩

def patientSpec : NodeSpec :=
  ⟨"Patient", "patient_id",
   [("name", strCol "patient_name"), ("sex", strCol "patient_sex"),
    ("dob", strCol "patient_dob"), ("blood_type", strCol "patient_blood_type")], []⟩

def visitSpec : NodeSpec :=
  ⟨"Visit", "visit_id", [],
   [("room_number", intCol "room_number"), ("admission_type", strCol "admission_type"),
    ("admission_date", strCol "date_of_admission"), ("test_results", strCol "test_results"),
    ("chief_complaint", strCol "chief_complaint"),
    ("treatment_description", strCol "treatment_description"),
    ("primary_diagnosis", strCol "primary_diagnosis"),
    ("discharge_date", strCol "discharge_date"), ("status", strCol "visit_status")]⟩

def reviewSpec : NodeSpec :=
  ⟨"Review", "review_id",
   [("physician_name", strCol "physician_name"), ("hospital_name", strCol "hospital_name"),
    ("patient_name", strCol "patient_name"), ("text", strCol "review")], []⟩

def edgeKeyIs (e : Edge) (a b : Nat) (t : String) : Bool :=
  e.src == a && e.tgt == b && e.relType == t

/-- `MERGE (x)-[r:T]->(y)` for one bound endpoint pair, then `SET` the
listed properties on the matched or created edge. -/
def mergeEdgePair (g : Graph) (t : String) (a b : Nat) (sets : List (String × Option PropVal)) : Graph :=
  if g.edges.any (fun e => edgeKeyIs e a b t) then
    { g with edges := g.edges.map (fun e =>
        if edgeKeyIs e a b t then { e with props := applySets e.props sets } else e) }
  else
    { g with edges := g.edges ++ [⟨a, b, t, applySets [] sets⟩] }

def endpointKeyProp : String := "id"

/-- `MATCH (n:L {id: v})` over the store's nodes; `v = null` matches
nothing. -/
def matchEndpoint (ns : List Node) (label : String) : Option PropVal → List Nat
  | none => []
  | some v => (ns.filter (fun n => nodeMatches n label [(endpointKeyProp, v)])).map (·.nodeId)

inductive CsvSrc where
  | visits
  | reviews
deriving DecidableEq, Repr

/-- The shape of one relationship-kind load statement. -/
structure RelSpec where
  relType : String
  src : CsvSrc
  fromLabel : String
  fromIdField : String
  toLabel : String
  toIdField : String
  setProps : List (String × (Row → Option PropVal))

def pairsOf : List Nat → List Nat → List (Nat × Nat)
  | [], _ => []
  | a :: rest, bs => bs.map (fun b => (a, b)) ++ pairsOf rest bs

def mergeEdgeFan (t : String) (sets : List (String × Option PropVal)) : Graph → List (Nat × Nat) → Graph
  | g, [] => g
  | g, ab :: rest => mergeEdgeFan t sets (mergeEdgePair g t ab.fst ab.snd sets) rest

/-- One CSV record through a relationship statement: resolve both
endpoints by `id`, and `MERGE` one edge per resolved binding pair.  A
record with an unresolved endpoint contributes nothing. -/
def relRow (g : Graph) (spec : RelSpec) (r : Row) : Graph :=
  mergeEdgeFan spec.relType (spec.setProps.map (fun kf => (kf.fst, kf.snd r))) g
    (pairsOf
      (matchEndpoint g.nodes spec.fromLabel
        ((toIntegerOpt (getCol r spec.fromIdField)).map PropVal.int))
      (matchEndpoint g.nodes spec.toLabel
        ((toIntegerOpt (getCol r spec.toIdField)).map PropVal.int)))

def loadRelRows (spec : RelSpec) : List Row → Graph → Graph
  | [], g => g
  | r :: rs, g => loadRelRows spec rs (relRow g spec r)

def hasSpec : RelSpec := ⟨"HAS", .visits, "Patient", "patient_id", "Visit", "visit_id", []⟩

def atSpec : RelSpec := ⟨"AT", .visits, "Visit", "visit_id", "Hospital", "hospital_id", []⟩

def treatsSpec : RelSpec := ⟨"TREATS", .visits, "Physician", "physician_id", "Visit", "visit_id", []⟩

def coveredBySpec : RelSpec :=
  ⟨"COVERED_BY", .visits, "Visit", "visit_id", "Payer", "payer_id",
   [("service_date", strCol "discharge_date"),
    ("billing_amount", fun r => (toFloatOpt (getCol r "billing_amount")).map PropVal.rat)]⟩

def writesSpec : RelSpec := ⟨"WRITES", .reviews, "Visit", "visit_id", "Review", "review_id", []⟩

/-- `WHERE (p.id + h.id) % 30 = 0` - `null` ids match nothing. -/
def employsCond (p h : Node) : Bool :=
  match lookupProp p.props "id", lookupProp h.props "id" with
  | some (.int pid), some (.int hid) => (pid + hid) % 30 == 0
  | _, _ => false

def nodePairs : List Node → List Node → List (Node × Node)
  | [], _ => []
  | p :: ps, hs => hs.map (fun h => (p, h)) ++ nodePairs ps hs

def inferSteps : Graph → List (Node × Node) → Graph
  | g, [] => g
  | g, ph :: rest =>
    inferSteps
      (if employsCond ph.fst ph.snd then mergeEdgePair g "EMPLOYS" ph.fst.nodeId ph.snd.nodeId [] else g)
      rest

/-- The `EMPLOYS` inference statement: `MATCH (p:Physician) MATCH
(h:Hospital) WHERE (p.id + h.id) % 30 = 0 MERGE (p)-[:EMPLOYS]->(h)`. -/
def inferEmploys (g : Graph) : Graph :=
  inferSteps g
    (nodePairs (g.nodes.filter (fun n => n.label == "Physician"))
               (g.nodes.filter (fun n => n.label == "Hospital")))

inductive NodeKind where
  | Hospital
  | Payer
  | Physician
  | Patient
  | Visit
  | Review
deriving DecidableEq, Repr

inductive RelKind where
  | HAS
  | AT
  | TREATS
  | COVERED_BY
  | WRITES
deriving DecidableEq, Repr

/-- One statement of the pipeline. -/
inductive Stage where
  | constraintFor : NodeKind → Stage
  | nodeLoad : NodeKind → Stage
  | relLoad : RelKind → Stage
  | inference : Stage
deriving DecidableEq, Repr

/-- The six CSV sources, one record list per node kind. -/
structure Inputs where
  hospitals : List Row
  payers : List Row
  physicians : List Row
  patients : List Row
  visits : List Row
  reviews : List Row
deriving DecidableEq, Repr

def nodeSpec : NodeKind → NodeSpec
  | .Hospital => hospitalSpec
  | .Payer => payerSpec
  | .Physician => physicianSpec
  | .Patient => patientSpec
  | .Visit => visitSpec
  | .Review => reviewSpec

def nodeCsv : NodeKind → Inputs → List Row
  | .Hospital, inp => inp.hospitals
  | .Payer, inp => inp.payers
  | .Physician, inp => inp.physicians
  | .Patient, inp => inp.patients
  | .Visit, inp => inp.visits
  | .Review, inp => inp.reviews

def relSpec : RelKind → RelSpec
  | .HAS => hasSpec
  | .AT => atSpec
  | .TREATS => treatsSpec
  | .COVERED_BY => coveredBySpec
  | .WRITES => writesSpec

def relCsv (k : RelKind) (inp : Inputs) : List Row :=
  match (relSpec k).src with
  | .visits => inp.visits
  | .reviews => inp.reviews

def NODES : List String := ["Hospital", "Payer", "Physician", "Patient", "Visit", "Review"]

def constraintField : String := "id"

/-- `CREATE CONSTRAINT IF NOT EXISTS FOR (n:label) REQUIRE n.id IS
UNIQUE` - idempotent by construction. -/
def set_uniqueness_constraints (g : Graph) (label : String) : Graph :=
  if g.constraints.any (fun c => c.fst == label && c.snd == constraintField) then g
  else { g with constraints := g.constraints ++ [(label, constraintField)] }

def execStage (inp : Inputs) (g : Graph) : Stage → Except LoadErr Graph
  | .constraintFor k => .ok (set_uniqueness_constraints g (nodeSpec k).label)
  | .nodeLoad k => loadNodeRows (nodeSpec k) (nodeCsv k inp) g
  | .relLoad k => .ok (loadRelRows (relSpec k) (relCsv k inp) g)
  | .inference => .ok (inferEmploys g)

/-- The fixed statement order of `load_hospital_graph_from_csv`. -/
def pipelineOrder : List Stage :=
  [.constraintFor .Hospital, .constraintFor .Payer, .constraintFor .Physician,
   .constraintFor .Patient, .constraintFor .Visit, .constraintFor .Review,
   .nodeLoad .Hospital, .nodeLoad .Payer, .nodeLoad .Physician,
   .nodeLoad .Patient, .nodeLoad .Visit, .nodeLoad .Review,
   .relLoad .HAS, .relLoad .AT, .relLoad .TREATS, .relLoad .COVERED_BY, .relLoad .WRITES,
   .inference]

/-- The six constraint statements, in source order. -/
def constraintStages : List Stage :=
  [.constraintFor .Hospital, .constraintFor .Payer, .constraintFor .Physician,
   .constraintFor .Patient, .constraintFor .Visit, .constraintFor .Review]

/-- Node loads, relationship loads and inference, in source order. -/
def dataStages : List Stage :=
  [.nodeLoad .Hospital, .nodeLoad .Payer, .nodeLoad .Physician,
   .nodeLoad .Patient, .nodeLoad .Visit, .nodeLoad .Review,
   .relLoad .HAS, .relLoad .AT, .relLoad .TREATS, .relLoad .COVERED_BY, .relLoad .WRITES,
   .inference]

/-- The store state after the six constraint statements. -/
def gcAfter (g : Graph) : Graph :=
  set_uniqueness_constraints (set_uniqueness_constraints (set_uniqueness_constraints
    (set_uniqueness_constraints (set_uniqueness_constraints (set_uniqueness_constraints
      g "Hospital") "Payer") "Physician") "Patient") "Visit") "Review"

/-- Run a statement list; the first failing statement aborts the run,
its own writes rolled back, all previously committed statements kept. -/
def runStages (inp : Inputs) : List Stage → Graph → Graph × Option LoadErr
  | [], g => (g, none)
  | s :: ss, g =>
    match execStage inp g s with
    | .error e => (g, some e)
    | .ok g' => runStages inp ss g'

/-- One attempt of the full load (the body of
`load_hospital_graph_from_csv`). -/
def runPipeline (inp : Inputs) (g : Graph) : Graph × Option LoadErr :=
  runStages inp pipelineOrder g

/-- The `retry` decorator: at most `tries` attempts, a fixed `delay`
between consecutive attempts, no backoff.  Returns the final result, the
number of attempts made and the list of inter-attempt delays. -/
def retryExec (attempt : Nat → Except LoadErr Graph) (delay : Nat) :
    Nat → Nat → Except LoadErr Graph × Nat × List Nat
  | _, 0 => (.error .storeUnavailable, 0, [])
  | k, 1 => (attempt k, 1, [])
  | k, t + 2 =>
    match attempt k with
    | .ok a => (.ok a, 1, [])
    | .error _ =>
      let rest := retryExec attempt delay (k + 1) (t + 1)
      (rest.fst, rest.snd.fst + 1, delay :: rest.snd.snd)

/-- One run attempt against a store that is reachable on attempt `k` iff
`avail k`; an unreachable store leaves the state untouched. -/
def attemptWith (avail : Nat → Bool) (inp : Inputs) (g : Graph) (k : Nat) : Except LoadErr Graph :=
  if avail k then
    match runPipeline inp g with
    | (g', none) => .ok g'
    | (_, some e) => .error e
  else .error .storeUnavailable

/-- `@retry(tries=3, delay=10)` applied to the pipeline body. -/
def load_hospital_graph_from_csv (avail : Nat → Bool) (inp : Inputs) (g : Graph) :
    Except LoadErr Graph × Nat × List Nat :=
  retryExec (attemptWith avail inp g) 10 0 3

def nodeCount (g : Graph) (label : String) : Nat :=
  (g.nodes.filter (fun n => n.label == label)).length

def edgeKey (e : Edge) : Nat × Nat × String := (e.src, e.tgt, e.relType)

def edgeKeys (g : Graph) : List (Nat × Nat × String) := g.edges.map edgeKey

def edgeCount (g : Graph) (t : String) : Nat :=
  (g.edges.filter (fun e => e.relType == t)).length

def anyEdgeKey (g : Graph) (a b : Nat) (t : String) : Bool :=
  g.edges.any (fun e => edgeKeyIs e a b t)

def countIdNodes (g : Graph) (label : String) (v : Int) : Nat :=
  (g.nodes.filter (fun n => n.label == label && lookupProp n.props "id" == some (PropVal.int v))).length

/-- States reachable from the empty store by whole pipeline runs
(successful or aborted). -/
inductive Reachable : Graph → Prop where
  | start : Reachable emptyGraph
  | step : ∀ (g : Graph) (inp : Inputs), Reachable g → Reachable (runPipeline inp g).fst

/-- Phase of a stage: constraints, node loads, relationship loads,
inference. -/
def stageClass : Stage → Nat
  | .constraintFor _ => 0
  | .nodeLoad _ => 1
  | .relLoad _ => 2
  | .inference => 3

def classesSorted : List Nat → Bool
  | [] => true
  | [_] => true
  | a :: b :: t => Nat.ble a b && classesSorted (b :: t)

def emptyInputs : Inputs := ⟨[], [], [], [], [], []⟩

def sixConstraints : List (String × String) :=
  [("Hospital", "id"), ("Payer", "id"), ("Physician", "id"),
   ("Patient", "id"), ("Visit", "id"), ("Review", "id")]

def constraintsOnlyGraph : Graph := ⟨0, [], [], sixConstraints⟩

def visitOnlyInputs (c : String) : Inputs :=
  ⟨[], [], [], [], [[("visit_id", "7"), ("chief_complaint", c)]], []⟩

def hospitalOnlyInputs (nm : String) : Inputs :=
  ⟨[[("hospital_id", "1"), ("hospital_name", nm), ("hospital_state", "CA")]], [], [], [], [], []⟩

def hospitalGraph (nm : String) : Graph :=
  ⟨1, [⟨0, "Hospital", [("id", .int 1), ("name", .str nm), ("state_name", .str "CA")]⟩],
   [], sixConstraints⟩

def visitGraph (c : String) : Graph :=
  ⟨1, [⟨0, "Visit", [("id", .int 7), ("chief_complaint", .str c)]⟩], [], sixConstraints⟩

def availThird : Nat → Bool := fun k => k == 2

def availNever : Nat → Bool := fun _ => false

def badIdInputs : Inputs := ⟨[[("hospital_id", "n/a")]], [], [], [], [], []⟩

def gVisitOnly : Graph := ⟨1, [⟨0, "Visit", [("id", .int 1)]⟩], [], sixConstraints⟩

def rowNoPayer : Row := [("visit_id", "1"), ("payer_id", "5")]

/-- Number of edges of kind `t` between the ordered endpoint pair
`(a, b)`. -/
def countKey (g : Graph) (a b : Nat) (t : String) : Nat :=
  (g.edges.filter (fun e => edgeKeyIs e a b t)).length

def gVisitPayer : Graph :=
  ⟨2, [⟨0, "Visit", [("id", .int 1)]⟩, ⟨1, "Payer", [("id", .int 2)]⟩], [], sixConstraints⟩

def rowBilled : Row :=
  [("visit_id", "1"), ("payer_id", "2"), ("discharge_date", "2021-05-01"),
   ("billing_amount", "1250.50")]

def rowUnbilled : Row :=
  [("visit_id", "1"), ("payer_id", "2"), ("discharge_date", "2021-05-01"),
   ("billing_amount", "N/A")]

def gEmployEx : Graph :=
  ⟨5, [⟨0, "Physician", [("id", .int 3)]⟩, ⟨1, "Physician", [("id", .int 12)]⟩,
       ⟨2, "Hospital", [("id", .int 9)]⟩, ⟨3, "Hospital", [("id", .int 18)]⟩,
       ⟨4, "Hospital", [("id", .int 27)]⟩], [], sixConstraints⟩

/-- Correspondence between a node of a re-run state and the node of the
first run's final state it refines: same internal identity, same label,
same id property, and identical properties except possibly on Visit
nodes (whose SET clauses may transiently rewrite attribute values during
the re-run). -/
def nodeSim (m n : Node) : Prop :=
  m.nodeId = n.nodeId ∧ m.label = n.label ∧
  (m.label ≠ "Visit" → m.props = n.props) ∧
  lookupProp m.props "id" = lookupProp n.props "id"

/-- Correspondence between a re-run state and the first run's final
state: equal id counter, pointwise `nodeSim` nodes, equal edge key
lists, equal constraints. -/
def graphSim (g2 g1 : Graph) : Prop :=
  g2.nextId = g1.nextId ∧
  List.Forall₂ nodeSim g2.nodes g1.nodes ∧
  g2.edges.map edgeKey = g1.edges.map edgeKey ∧
  g2.constraints = g1.constraints

/-- Patterns whose matches survive the pipeline's later writes: any
pattern on a non-Visit label (non-Visit nodes are never modified after
creation), or a pure-id pattern (SET clauses never touch id). -/
def stablePat (label : String) (pat : Props) : Prop :=
  label ≠ "Visit" ∨ pat.map Prod.fst = ["id"]

/-- What each pipeline operation preserves: stable-pattern node matches,
edge keys, and declared constraints. -/
def presv (g g' : Graph) : Prop :=
  (∀ label pat, stablePat label pat →
    anyNodeMatch g label pat = true → anyNodeMatch g' label pat = true) ∧
  (∀ x : Nat × Nat × String, x ∈ edgeKeys g → x ∈ edgeKeys g') ∧
  (∀ c : String × String, c ∈ g.constraints → c ∈ g'.constraints)

/-- Shape facts about the six node-load statements: the five
merge-everything kinds have no SET clause, a non-Visit label and
duplicate-free merge keys; Visit merges on id alone and its SET clause
never writes id. -/
def specOK (spec : NodeSpec) : Prop :=
  (spec.label ≠ "Visit" ∧ spec.setProps = [] ∧
    ("id" :: spec.attrProps.map Prod.fst).Nodup) ∨
  (spec.label = "Visit" ∧ spec.attrProps = [] ∧
    ∀ kv ∈ spec.setProps, (kv.fst == "id") = false)

end Etl

namespace Etl

/-- C7: the stage order of a run is fixed: the six uniqueness-constraint
statements come first, then the six node-kind loads, then the five
sourced relationship-kind loads, and the EMPLOYS inference is the final
statement of the run. -/
theorem pipeline_stage_order :
    pipelineOrder =
      [.constraintFor .Hospital, .constraintFor .Payer, .constraintFor .Physician,
       .constraintFor .Patient, .constraintFor .Visit, .constraintFor .Review,
       .nodeLoad .Hospital, .nodeLoad .Payer, .nodeLoad .Physician,
       .nodeLoad .Patient, .nodeLoad .Visit, .nodeLoad .Review,
       .relLoad .HAS, .relLoad .AT, .relLoad .TREATS, .relLoad .COVERED_BY, .relLoad .WRITES,
       .inference] ∧
    classesSorted (pipelineOrder.map stageClass) = true ∧
    pipelineOrder.getLast? = some Stage.inference := by
  refine ⟨rfl, by decide, by decide⟩

/-- C8: the retry policy is job-granular with exactly 3 attempts and a
fixed delay of 10 between attempts: an unreachable store on the first
two attempts followed by a reachable one on the third lets the run
succeed after exactly 3 attempts with delays 10 and 10; an unreachable
store on all three attempts yields a single final failure after exactly
3 attempts; the outcome never depends on availability beyond the third
attempt. -/
theorem retry_policy (avail : Nat → Bool) (inp : Inputs) (g : Graph) :
    (avail 0 = false → avail 1 = false → avail 2 = true → (runPipeline inp g).snd = none →
      load_hospital_graph_from_csv avail inp g = (.ok (runPipeline inp g).fst, 3, [10, 10])) ∧
    (avail 0 = false → avail 1 = false → avail 2 = false →
      load_hospital_graph_from_csv avail inp g = (.error .storeUnavailable, 3, [10, 10])) ∧
    (∀ avail' : Nat → Bool, avail' 0 = avail 0 → avail' 1 = avail 1 → avail' 2 = avail 2 →
      load_hospital_graph_from_csv avail' inp g = load_hospital_graph_from_csv avail inp g) := by
  rcases hR : runPipeline inp g with ⟨g1, e1⟩
  refine ⟨?_, ?_, ?_⟩
  · intro h0 h1 h2 hp
    simp only at hp ⊢
    subst hp
    simp [load_hospital_graph_from_csv, retryExec, attemptWith, h0, h1, h2, hR]
  · intro h0 h1 h2
    simp [load_hospital_graph_from_csv, retryExec, attemptWith, h0, h1, h2]
  · intro avail' e0 e1' e2
    cases h0 : avail 0 <;> cases h1 : avail 1 <;> cases h2 : avail 2 <;>
      simp [load_hospital_graph_from_csv, retryExec, attemptWith, e0, e1', e2, h0, h1, h2, hR]

/-- Witness for `retry_policy` at a concrete availability pattern, input
set and store state. -/
theorem retry_policy_witness :
    load_hospital_graph_from_csv availThird emptyInputs emptyGraph =
      (.ok constraintsOnlyGraph, 3, [10, 10]) ∧
    load_hospital_graph_from_csv availNever emptyInputs emptyGraph =
      (.error .storeUnavailable, 3, [10, 10]) := by
  constructor
  · have h := (retry_policy availThird emptyInputs emptyGraph).1 rfl rfl rfl (by decide)
    have hg : (runPipeline emptyInputs emptyGraph).fst = constraintsOnlyGraph := by decide
    rw [hg] at h
    exact h
  · exact (retry_policy availNever emptyInputs emptyGraph).2.1 rfl rfl rfl

theorem beq_int_int (a b : Int) : (PropVal.int a == PropVal.int b) = (a == b) := rfl

theorem beq_str_str (a b : String) : (PropVal.str a == PropVal.str b) = (a == b) := rfl

theorem beq_int_str (a : Int) (b : String) : (PropVal.int a == PropVal.str b) = false := rfl

theorem beq_str_int (a : String) (b : Int) : (PropVal.str a == PropVal.int b) = false := rfl

theorem beq_some_some (x y : PropVal) :
    ((some x : Option PropVal) == some y) = (x == y) := rfl

theorem beq_none_some (y : PropVal) : ((none : Option PropVal) == some y) = false := rfl

/-- C10 as stated is false: the Hospital node merge is keyed on the name
and state properties as well, not on the single property `id` (the same
holds for Payer, Physician, Patient and Review). -/
theorem merge_key_not_single_id :
    (mergePatOf hospitalSpec []).map Prod.fst ≠ [constraintField] := by decide

/-- C10 amended: the identifier property named by the uniqueness
constraint, the endpoint-resolution key, and the identifier entry of
every node-merge key coincide as the property `id` (and the merge key is
row-independent); but only for the Visit kind is `id` the entire merge
key - the other five kinds' merge keys also contain their attribute
properties. -/
theorem identifier_key_is_id :
    constraintField = "id" ∧
    endpointKeyProp = constraintField ∧
    (∀ (k : NodeKind) (r : Row),
      ((mergePatOf (nodeSpec k) r).map Prod.fst).head? = some constraintField ∧
      (mergePatOf (nodeSpec k) r).map Prod.fst = (mergePatOf (nodeSpec k) []).map Prod.fst) ∧
    (∀ r : Row, (mergePatOf visitSpec r).map Prod.fst = [constraintField]) := by
  refine ⟨rfl, rfl, ?_, ?_⟩
  · intro k r
    cases k <;>
      simp [mergePatOf, nodeSpec, hospitalSpec, payerSpec, physicianSpec, patientSpec,
            visitSpec, reviewSpec, constraintField]
  · intro r
    simp [mergePatOf, visitSpec, constraintField]

/-- C1 as stated is false: after loading a Hospital record with id 1 and
name "General", re-running the load with the same id but name "Mercy"
does not leave one node bearing the latest attribute values - the
second run aborts and no node carries the new name. -/
theorem upsert_not_keyed_on_id_alone :
    ¬ (((runPipeline (hospitalOnlyInputs "Mercy")
          (runPipeline (hospitalOnlyInputs "General") emptyGraph).fst).snd = none) ∧
       ((runPipeline (hospitalOnlyInputs "Mercy")
          (runPipeline (hospitalOnlyInputs "General") emptyGraph).fst).fst.nodes.any
          (fun n => nodeMatches n "Hospital" [("id", .int 1), ("name", .str "Mercy")])) = true) := by
  decide

/-- C1 amended: only the Visit kind is merged keyed solely on
(kind, id) with the remaining attributes then set, overwriting prior
values - re-loading a Visit record with the same identifier and a
changed attribute updates the one existing node in place.  For the
other five kinds the merge key includes every attribute value, so a
record with an existing identifier but a changed attribute matches
nothing, and its attempted create is rejected by the uniqueness
constraint: the statement fails and the stored node keeps its old
attribute values. -/
theorem visit_run_from_empty (c : String) :
    runPipeline (visitOnlyInputs c) emptyGraph = (visitGraph c, none) := by
  simp [runPipeline, pipelineOrder, runStages, execStage, nodeSpec, nodeCsv, relSpec, relCsv,
        set_uniqueness_constraints, constraintField, emptyGraph, sixConstraints,
        visitOnlyInputs, visitGraph, loadNodeRows, mergeNodeRow, mergePatOf, setsOf,
        liftPattern, anyNodeMatch, nodeMatches, patMatches, lookupProp, violatesConstraint,
        applySets, setOne, hospitalSpec, payerSpec, physicianSpec, patientSpec, visitSpec,
        reviewSpec, strCol, intCol, getCol, toIntegerOpt, parseIntString, parseIntChars,
        parseNatDigits, digitsGo, charDigit, loadRelRows, relRow, matchEndpoint,
        endpointKeyProp, mergeEdgePair, mergeEdgeFan, pairsOf, edgeKeyIs, hasSpec, atSpec,
        treatsSpec, coveredBySpec, writesSpec, inferEmploys, nodePairs, inferSteps,
        employsCond, beq_int_int, beq_str_str, beq_int_str, beq_str_int, beq_some_some, beq_none_some]

theorem visit_rerun (c1 c2 : String) :
    runPipeline (visitOnlyInputs c2) (visitGraph c1) = (visitGraph c2, none) := by
  simp [runPipeline, pipelineOrder, runStages, execStage, nodeSpec, nodeCsv, relSpec, relCsv,
        set_uniqueness_constraints, constraintField, sixConstraints,
        visitOnlyInputs, visitGraph, loadNodeRows, mergeNodeRow, mergePatOf, setsOf,
        liftPattern, anyNodeMatch, nodeMatches, patMatches, lookupProp, violatesConstraint,
        applySets, setOne, hospitalSpec, payerSpec, physicianSpec, patientSpec, visitSpec,
        reviewSpec, strCol, intCol, getCol, toIntegerOpt, parseIntString, parseIntChars,
        parseNatDigits, digitsGo, charDigit, loadRelRows, relRow, matchEndpoint,
        endpointKeyProp, mergeEdgePair, mergeEdgeFan, pairsOf, edgeKeyIs, hasSpec, atSpec,
        treatsSpec, coveredBySpec, writesSpec, inferEmploys, nodePairs, inferSteps,
        employsCond, beq_int_int, beq_str_str, beq_int_str, beq_str_int, beq_some_some, beq_none_some]

theorem hospital_run_from_empty (s : String) :
    runPipeline (hospitalOnlyInputs s) emptyGraph = (hospitalGraph s, none) := by
  simp [runPipeline, pipelineOrder, runStages, execStage, nodeSpec, nodeCsv, relSpec, relCsv,
        set_uniqueness_constraints, constraintField, emptyGraph, sixConstraints,
        hospitalOnlyInputs, hospitalGraph, loadNodeRows, mergeNodeRow, mergePatOf, setsOf,
        liftPattern, anyNodeMatch, nodeMatches, patMatches, lookupProp, violatesConstraint,
        applySets, setOne, hospitalSpec, payerSpec, physicianSpec, patientSpec, visitSpec,
        reviewSpec, strCol, intCol, getCol, toIntegerOpt, parseIntString, parseIntChars,
        parseNatDigits, digitsGo, charDigit, loadRelRows, relRow, matchEndpoint,
        endpointKeyProp, mergeEdgePair, mergeEdgeFan, pairsOf, edgeKeyIs, hasSpec, atSpec,
        treatsSpec, coveredBySpec, writesSpec, inferEmploys, nodePairs, inferSteps,
        employsCond, beq_int_int, beq_str_str, beq_int_str, beq_str_int, beq_some_some, beq_none_some]

theorem hospital_rerun_changed_name (s1 s2 : String) (h : (s1 == s2) = false) :
    runPipeline (hospitalOnlyInputs s2) (hospitalGraph s1) =
      (hospitalGraph s1, some .constraintViolation) := by
  simp [runPipeline, pipelineOrder, runStages, execStage, nodeSpec, nodeCsv,
        set_uniqueness_constraints, hospitalGraph, sixConstraints, constraintField,
        hospitalOnlyInputs, loadNodeRows, mergeNodeRow, mergePatOf, hospitalSpec, payerSpec,
        physicianSpec, patientSpec, visitSpec, reviewSpec, strCol, intCol,
        getCol, toIntegerOpt, parseIntString, parseIntChars, parseNatDigits, digitsGo,
        charDigit, liftPattern, anyNodeMatch, nodeMatches, patMatches, lookupProp,
        violatesConstraint, setsOf, beq_int_int, beq_str_str, beq_int_str, beq_str_int,
        beq_some_some, beq_none_some, h]

theorem upsert_keying_amended :
    (∀ c1 c2 : String,
      runPipeline (visitOnlyInputs c1) emptyGraph = (visitGraph c1, none) ∧
      runPipeline (visitOnlyInputs c2) (visitGraph c1) = (visitGraph c2, none)) ∧
    (∀ s1 s2 : String, (s1 == s2) = false →
      runPipeline (hospitalOnlyInputs s1) emptyGraph = (hospitalGraph s1, none) ∧
      runPipeline (hospitalOnlyInputs s2) (hospitalGraph s1) =
        (hospitalGraph s1, some .constraintViolation)) := by
  exact ⟨fun c1 c2 => ⟨visit_run_from_empty c1, visit_rerun c1 c2⟩,
         fun s1 s2 h => ⟨hospital_run_from_empty s1, hospital_rerun_changed_name s1 s2 h⟩⟩

/-- Witness for `upsert_keying_amended` at concrete attribute values. -/
theorem upsert_keying_amended_witness :
    (runPipeline (visitOnlyInputs "cough") (visitGraph "fever") = (visitGraph "cough", none)) ∧
    (runPipeline (hospitalOnlyInputs "Mercy") (hospitalGraph "General") =
      (hospitalGraph "General", some .constraintViolation)) :=
  ⟨(upsert_keying_amended.1 "fever" "cough").2,
   (upsert_keying_amended.2 "General" "Mercy" (by decide)).2⟩

theorem mergeNodeRow_nullId (g : Graph) (spec : NodeSpec) (r : Row)
    (hid : toIntegerOpt (getCol r spec.idField) = none) :
    mergeNodeRow g spec r = .error .nullMergeKey := by
  simp [mergeNodeRow, mergePatOf, liftPattern, hid]

theorem loadNodeRows_err (spec : NodeSpec) (r : Row)
    (hid : toIntegerOpt (getCol r spec.idField) = none) :
    ∀ (rows : List Row) (g : Graph), r ∈ rows → ∃ e, loadNodeRows spec rows g = .error e := by
  intro rows
  induction rows with
  | nil => intro g h; cases h
  | cons a rs ih =>
    intro g h
    rcases List.mem_cons.mp h with h1 | h2
    · subst h1
      exact ⟨.nullMergeKey, by simp [loadNodeRows, mergeNodeRow_nullId g spec r hid]⟩
    · cases hM : mergeNodeRow g spec a with
      | error e => exact ⟨e, by simp [loadNodeRows, hM]⟩
      | ok g' =>
        obtain ⟨e, he⟩ := ih g' h2
        exact ⟨e, by simp [loadNodeRows, hM, he]⟩

theorem runStages_err (inp : Inputs) (s : Stage)
    (hs : ∀ g, ∃ e, execStage inp g s = .error e) :
    ∀ (ss : List Stage) (g : Graph), s ∈ ss → (runStages inp ss g).snd ≠ none := by
  intro ss
  induction ss with
  | nil => intro g h; cases h
  | cons a ts ih =>
    intro g h
    rcases List.mem_cons.mp h with h1 | h2
    · subst h1
      obtain ⟨e, he⟩ := hs g
      simp [runStages, he]
    · cases hEx : execStage inp g a with
      | error e => simp [runStages, hEx]
      | ok g' => simpa [runStages, hEx] using ih g' h2

/-- C9: a record whose identifier field is missing or not parseable as
an integer makes the node-load statement for that kind fail as a whole
(the `MERGE` hits a null key), which aborts the current run attempt -
the record is not skipped and the failed statement commits nothing. -/
theorem invalid_identifier_fatal (k : NodeKind) (inp : Inputs) (r : Row)
    (hr : r ∈ nodeCsv k inp) (hid : toIntegerOpt (getCol r (nodeSpec k).idField) = none) :
    (∀ g, ∃ e, execStage inp g (.nodeLoad k) = .error e) ∧
    (∀ g, (runPipeline inp g).snd ≠ none) := by
  have hstage : ∀ g, ∃ e, execStage inp g (.nodeLoad k) = .error e := fun g =>
    loadNodeRows_err (nodeSpec k) r hid (nodeCsv k inp) g hr
  exact ⟨hstage, fun g =>
    runStages_err inp (.nodeLoad k) hstage pipelineOrder g (by cases k <;> decide)⟩

/-- Witness for `invalid_identifier_fatal`: a Hospital record whose
identifier reads "n/a". -/
theorem invalid_identifier_fatal_witness :
    (∃ e, execStage badIdInputs emptyGraph (.nodeLoad .Hospital) = .error e) ∧
    (runPipeline badIdInputs emptyGraph).snd ≠ none := by
  have h := invalid_identifier_fatal .Hospital badIdInputs [("hospital_id", "n/a")]
    (by decide) (by decide)
  exact ⟨h.1 emptyGraph, h.2 emptyGraph⟩

theorem pairsOf_nil_right : ∀ xs : List Nat, pairsOf xs [] = [] := by
  intro xs
  induction xs with
  | nil => rfl
  | cons a t ih => simp [pairsOf, ih]

theorem relRow_skip (g : Graph) (spec : RelSpec) (r : Row)
    (hskip : matchEndpoint g.nodes spec.fromLabel
               ((toIntegerOpt (getCol r spec.fromIdField)).map PropVal.int) = [] ∨
             matchEndpoint g.nodes spec.toLabel
               ((toIntegerOpt (getCol r spec.toIdField)).map PropVal.int) = []) :
    relRow g spec r = g := by
  rcases hskip with h | h <;> simp [relRow, h, pairsOf, pairsOf_nil_right, mergeEdgeFan]

theorem mergeEdgePair_parts (g : Graph) (t : String) (a b : Nat)
    (sets : List (String × Option PropVal)) :
    (mergeEdgePair g t a b sets).nodes = g.nodes ∧
    (mergeEdgePair g t a b sets).nextId = g.nextId ∧
    (mergeEdgePair g t a b sets).constraints = g.constraints := by
  unfold mergeEdgePair
  split <;> exact ⟨rfl, rfl, rfl⟩

theorem mergeEdgeFan_parts (t : String) (sets : List (String × Option PropVal)) :
    ∀ (l : List (Nat × Nat)) (g : Graph),
      (mergeEdgeFan t sets g l).nodes = g.nodes ∧
      (mergeEdgeFan t sets g l).nextId = g.nextId ∧
      (mergeEdgeFan t sets g l).constraints = g.constraints := by
  intro l
  induction l with
  | nil => intro g; exact ⟨rfl, rfl, rfl⟩
  | cons ab rest ih =>
    intro g
    obtain ⟨h1, h2, h3⟩ := ih (mergeEdgePair g t ab.fst ab.snd sets)
    obtain ⟨p1, p2, p3⟩ := mergeEdgePair_parts g t ab.fst ab.snd sets
    exact ⟨by rw [mergeEdgeFan, h1, p1], by rw [mergeEdgeFan, h2, p2], by rw [mergeEdgeFan, h3, p3]⟩

theorem relRow_parts (g : Graph) (spec : RelSpec) (r : Row) :
    (relRow g spec r).nodes = g.nodes ∧
    (relRow g spec r).nextId = g.nextId ∧
    (relRow g spec r).constraints = g.constraints := by
  unfold relRow
  exact mergeEdgeFan_parts _ _ _ g

theorem loadRelRows_parts (spec : RelSpec) :
    ∀ (rows : List Row) (g : Graph),
      (loadRelRows spec rows g).nodes = g.nodes ∧
      (loadRelRows spec rows g).nextId = g.nextId ∧
      (loadRelRows spec rows g).constraints = g.constraints := by
  intro rows
  induction rows with
  | nil => intro g; exact ⟨rfl, rfl, rfl⟩
  | cons r rs ih =>
    intro g
    obtain ⟨h1, h2, h3⟩ := ih (relRow g spec r)
    obtain ⟨p1, p2, p3⟩ := relRow_parts g spec r
    exact ⟨by rw [loadRelRows, h1, p1], by rw [loadRelRows, h2, p2], by rw [loadRelRows, h3, p3]⟩

theorem loadRelRows_drop (spec : RelSpec) (r : Row) :
    ∀ (rows1 : List Row) (rows2 : List Row) (g : Graph),
      (matchEndpoint g.nodes spec.fromLabel
         ((toIntegerOpt (getCol r spec.fromIdField)).map PropVal.int) = [] ∨
       matchEndpoint g.nodes spec.toLabel
         ((toIntegerOpt (getCol r spec.toIdField)).map PropVal.int) = []) →
      loadRelRows spec (rows1 ++ r :: rows2) g = loadRelRows spec (rows1 ++ rows2) g := by
  intro rows1
  induction rows1 with
  | nil =>
    intro rows2 g hskip
    simp only [List.nil_append, loadRelRows]
    rw [relRow_skip g spec r hskip]
  | cons a rows1 ih =>
    intro rows2 g hskip
    simp only [List.cons_append, loadRelRows]
    exact ih rows2 (relRow g spec a) (by rw [(relRow_parts g spec a).1]; exact hskip)

/-- C5: a relationship record (of any sourced kind) whose endpoints do
not both resolve among loaded nodes produces no edge and does not abort
the statement or the run: the record can be deleted from the CSV without
changing the result, and the relationship statement always succeeds. -/
theorem unresolved_endpoint_skipped (k : RelKind) (inp : Inputs) (g : Graph)
    (rows1 rows2 : List Row) (r : Row)
    (hskip : matchEndpoint g.nodes (relSpec k).fromLabel
               ((toIntegerOpt (getCol r (relSpec k).fromIdField)).map PropVal.int) = [] ∨
             matchEndpoint g.nodes (relSpec k).toLabel
               ((toIntegerOpt (getCol r (relSpec k).toIdField)).map PropVal.int) = []) :
    loadRelRows (relSpec k) (rows1 ++ r :: rows2) g = loadRelRows (relSpec k) (rows1 ++ rows2) g ∧
    execStage inp g (.relLoad k) = .ok (loadRelRows (relSpec k) (relCsv k inp) g) := by
  exact ⟨loadRelRows_drop (relSpec k) r rows1 rows2 g hskip, rfl⟩

/-- Witness for `unresolved_endpoint_skipped`: a COVERED_BY record whose
payer is not loaded. -/
theorem unresolved_endpoint_skipped_witness :
    loadRelRows (relSpec .COVERED_BY) ([] ++ rowNoPayer :: []) gVisitOnly =
      loadRelRows (relSpec .COVERED_BY) ([] ++ []) gVisitOnly ∧
    execStage emptyInputs gVisitOnly (.relLoad .COVERED_BY) =
      .ok (loadRelRows (relSpec .COVERED_BY) (relCsv .COVERED_BY emptyInputs) gVisitOnly) :=
  unresolved_endpoint_skipped .COVERED_BY emptyInputs gVisitOnly [] [] rowNoPayer
    (Or.inr (by decide))

theorem lookupProp_cons_hit (a : String × PropVal) (t : Props) (k : String)
    (h : (a.fst == k) = true) : lookupProp (a :: t) k = some a.snd := by
  simp [lookupProp, List.find?, h]

theorem lookupProp_cons_miss (a : String × PropVal) (t : Props) (k : String)
    (h : (a.fst == k) = false) : lookupProp (a :: t) k = lookupProp t k := by
  simp [lookupProp, List.find?, h]

theorem lookup_append (ps qs : Props) (k : String) :
    lookupProp (ps ++ qs) k =
      match lookupProp ps k with
      | some v => some v
      | none => lookupProp qs k := by
  induction ps with
  | nil => simp [lookupProp]
  | cons a t ih =>
    rw [List.cons_append]
    cases h : a.fst == k
    · rw [lookupProp_cons_miss _ _ _ h, lookupProp_cons_miss _ _ _ h, ih]
    · rw [lookupProp_cons_hit _ _ _ h, lookupProp_cons_hit _ _ _ h]

theorem lookup_none_of_any_false (ps : Props) (k : String)
    (h : ps.any (fun kv => kv.fst == k) = false) : lookupProp ps k = none := by
  induction ps with
  | nil => rfl
  | cons a t ih =>
    rw [List.any_cons, Bool.or_eq_false_iff] at h
    rw [lookupProp_cons_miss _ _ _ h.1]
    exact ih h.2

theorem lookup_filter_ne (ps : Props) (k : String) :
    lookupProp (ps.filter (fun kv => kv.fst != k)) k = none := by
  induction ps with
  | nil => rfl
  | cons a t ih =>
    rw [List.filter_cons]
    cases h : a.fst == k
    · rw [if_pos (show ((a.fst != k) = true) by simp [bne, h]), lookupProp_cons_miss _ _ _ h]
      exact ih
    · rw [if_neg (show ¬ ((a.fst != k) = true) by simp [bne, h])]
      exact ih

theorem lookup_map_set (ps : Props) (k : String) (v : PropVal) :
    lookupProp (ps.map (fun kv => if kv.fst == k then (k, v) else kv)) k =
      if ps.any (fun kv => kv.fst == k) then some v else none := by
  induction ps with
  | nil => rfl
  | cons a t ih =>
    rw [List.map_cons, List.any_cons]
    cases h : a.fst == k
    · rw [if_neg Bool.false_ne_true, Bool.false_or, lookupProp_cons_miss _ _ _ h]
      exact ih
    · rw [if_pos rfl, Bool.true_or, lookupProp_cons_hit (k, v) _ k (by simp), if_pos rfl]

theorem lookup_setOne_same (ps : Props) (k : String) (vo : Option PropVal) :
    lookupProp (setOne ps k vo) k = vo := by
  cases vo with
  | some v =>
    show lookupProp (if ps.any (fun kv => kv.fst == k) then
        ps.map (fun kv => if kv.fst == k then (k, v) else kv) else ps ++ [(k, v)]) k = some v
    cases h : ps.any (fun kv => kv.fst == k)
    · rw [if_neg Bool.false_ne_true, lookup_append, lookup_none_of_any_false ps k h]
      exact lookupProp_cons_hit (k, v) [] k (by simp)
    · rw [if_pos rfl, lookup_map_set, if_pos h]
  | none => exact lookup_filter_ne ps k

theorem lookup_map_set_diff (ps : Props) (k k' : String) (v : PropVal)
    (hne : (k == k') = false) :
    lookupProp (ps.map (fun kv => if kv.fst == k then (k, v) else kv)) k' = lookupProp ps k' := by
  induction ps with
  | nil => rfl
  | cons a t ih =>
    rw [List.map_cons]
    cases h : a.fst == k
    · cases h' : a.fst == k'
      · rw [if_neg Bool.false_ne_true,
            lookupProp_cons_miss _ _ _ h', lookupProp_cons_miss _ _ _ h']
        exact ih
      · rw [if_neg Bool.false_ne_true,
            lookupProp_cons_hit _ _ _ h', lookupProp_cons_hit _ _ _ h']
    · have ha : a.fst = k := by simpa using h
      have h' : (a.fst == k') = false := by rw [ha]; exact hne
      rw [if_pos rfl, lookupProp_cons_miss (k, v) _ k' hne,
          lookupProp_cons_miss _ _ _ h']
      exact ih

theorem lookup_filter_diff (ps : Props) (k k' : String) (hne : (k == k') = false) :
    lookupProp (ps.filter (fun kv => kv.fst != k)) k' = lookupProp ps k' := by
  induction ps with
  | nil => rfl
  | cons a t ih =>
    rw [List.filter_cons]
    cases h : a.fst == k
    · cases h' : a.fst == k'
      · rw [if_pos (show ((a.fst != k) = true) by simp [bne, h]),
            lookupProp_cons_miss _ _ _ h', lookupProp_cons_miss _ _ _ h']
        exact ih
      · rw [if_pos (show ((a.fst != k) = true) by simp [bne, h]),
            lookupProp_cons_hit _ _ _ h', lookupProp_cons_hit _ _ _ h']
    · have ha : a.fst = k := by simpa using h
      have h' : (a.fst == k') = false := by rw [ha]; exact hne
      rw [if_neg (show ¬ ((a.fst != k) = true) by simp [bne, h]),
          lookupProp_cons_miss _ _ _ h']
      exact ih

theorem lookup_setOne_diff (ps : Props) (k k' : String) (vo : Option PropVal)
    (hne : (k == k') = false) :
    lookupProp (setOne ps k vo) k' = lookupProp ps k' := by
  cases vo with
  | some v =>
    show lookupProp (if ps.any (fun kv => kv.fst == k) then
        ps.map (fun kv => if kv.fst == k then (k, v) else kv) else ps ++ [(k, v)]) k' = _
    cases h : ps.any (fun kv => kv.fst == k)
    · rw [if_neg Bool.false_ne_true, lookup_append]
      cases hl : lookupProp ps k'
      · exact lookupProp_cons_miss (k, v) [] k' hne
      · rfl
    · rw [if_pos rfl]
      exact lookup_map_set_diff ps k k' v hne
  | none => exact lookup_filter_diff ps k k' hne

theorem lookup_applySets_pair (ps : Props) (so bo : Option PropVal) :
    lookupProp (applySets ps [("service_date", so), ("billing_amount", bo)]) "service_date" = so ∧
    lookupProp (applySets ps [("service_date", so), ("billing_amount", bo)]) "billing_amount" = bo := by
  constructor
  · show lookupProp (setOne (setOne ps "service_date" so) "billing_amount" bo) "service_date" = so
    rw [lookup_setOne_diff _ _ _ _ (by decide), lookup_setOne_same]
  · show lookupProp (setOne (setOne ps "service_date" so) "billing_amount" bo) "billing_amount" = bo
    rw [lookup_setOne_same]

theorem edgeKeyIs_set (e : Edge) (a b : Nat) (t : String) (ps : Props) :
    edgeKeyIs { e with props := ps } a b t = edgeKeyIs e a b t := rfl

theorem filter_length_map_update {α : Type} (p : α → Bool) (u : α → α)
    (hu : ∀ e, p (u e) = p e) :
    ∀ es : List α, ((es.map u).filter p).length = (es.filter p).length := by
  intro es
  induction es with
  | nil => rfl
  | cons a t ih => cases h : p a <;> simp [List.map_cons, List.filter_cons, hu, h, ih]

theorem count_pos_of_any {α : Type} (p : α → Bool) :
    ∀ es : List α, es.any p = true → 1 ≤ (es.filter p).length := by
  intro es
  induction es with
  | nil => intro h; cases h
  | cons a t ih =>
    intro h
    cases ha : p a
    · simp only [List.any_cons, ha, Bool.false_or] at h
      simpa [List.filter_cons, ha] using ih h
    · simp [List.filter_cons, ha]

theorem filter_nil_of_any_false {α : Type} (p : α → Bool) :
    ∀ es : List α, es.any p = false → es.filter p = [] := by
  intro es
  induction es with
  | nil => intro _; rfl
  | cons a t ih =>
    intro h
    simp only [List.any_cons, Bool.or_eq_false_iff] at h
    simp [List.filter_cons, h.1, ih h.2]

theorem mergeEdgePair_count (g : Graph) (t : String) (a b : Nat)
    (sets : List (String × Option PropVal)) (hle : countKey g a b t ≤ 1) :
    countKey (mergeEdgePair g t a b sets) a b t = 1 := by
  unfold countKey mergeEdgePair
  cases h : g.edges.any (fun e => edgeKeyIs e a b t)
  · simp only [h, Bool.false_eq_true, if_false]
    rw [List.filter_append, filter_nil_of_any_false _ _ h]
    simp [edgeKeyIs]
  · simp only [h, if_true]
    rw [filter_length_map_update _ _
      (fun e => by cases he : edgeKeyIs e a b t <;> simp [he, edgeKeyIs_set])]
    have h1 := count_pos_of_any _ g.edges h
    unfold countKey at hle
    omega

theorem mergeEdgePair_key_props (g : Graph) (t : String) (a b : Nat)
    (sets : List (String × Option PropVal)) (e : Edge)
    (he : e ∈ (mergeEdgePair g t a b sets).edges) (hk : edgeKeyIs e a b t = true) :
    ∃ p, e.props = applySets p sets := by
  unfold mergeEdgePair at he
  cases h : g.edges.any (fun ed => edgeKeyIs ed a b t)
  · rw [h] at he
    simp only [Bool.false_eq_true, if_false, List.mem_append, List.mem_singleton] at he
    rcases he with he | he
    · exfalso
      simp only [List.any_eq_false] at h
      exact absurd hk (by simpa using h e he)
    · exact ⟨[], by rw [he]⟩
  · rw [h] at he
    simp only [if_true, List.mem_map] at he
    rcases he with ⟨e0, he0, rfl⟩
    cases hke : edgeKeyIs e0 a b t
    · rw [if_neg (by simp [hke])] at hk ⊢
      exact absurd hk (by simp [hke])
    · rw [if_pos (by simp [hke])]
      exact ⟨e0.props, rfl⟩

theorem relRow_single (g : Graph) (spec : RelSpec) (r : Row) (av bv : Nat)
    (hf : matchEndpoint g.nodes spec.fromLabel
            ((toIntegerOpt (getCol r spec.fromIdField)).map PropVal.int) = [av])
    (ht : matchEndpoint g.nodes spec.toLabel
            ((toIntegerOpt (getCol r spec.toIdField)).map PropVal.int) = [bv]) :
    relRow g spec r =
      mergeEdgePair g spec.relType av bv (spec.setProps.map (fun kf => (kf.fst, kf.snd r))) := by
  simp [relRow, hf, ht, pairsOf, mergeEdgeFan]

/-- C6: a COVERED_BY record whose Visit and Payer endpoints resolve
produces exactly one edge between the resolved pair; its service_date is
the record discharge_date and its billing_amount is the decimal parse of
the record billing_amount - set when the parse succeeds, absent when it
fails - and the statement never aborts. -/
theorem covered_by_attribute_set (g : Graph) (r : Row) (av bv : Nat)
    (hf : matchEndpoint g.nodes "Visit"
            ((toIntegerOpt (getCol r "visit_id")).map PropVal.int) = [av])
    (ht : matchEndpoint g.nodes "Payer"
            ((toIntegerOpt (getCol r "payer_id")).map PropVal.int) = [bv])
    (hcnt : countKey g av bv "COVERED_BY" ≤ 1) :
    countKey (relRow g coveredBySpec r) av bv "COVERED_BY" = 1 ∧
    ∀ e ∈ (relRow g coveredBySpec r).edges, edgeKeyIs e av bv "COVERED_BY" = true →
      lookupProp e.props "service_date" = (getCol r "discharge_date").map PropVal.str ∧
      lookupProp e.props "billing_amount" = (toFloatOpt (getCol r "billing_amount")).map PropVal.rat := by
  have hrw := relRow_single g coveredBySpec r av bv hf ht
  constructor
  · rw [hrw]
    exact mergeEdgePair_count g _ av bv _ hcnt
  · intro e he hk
    rw [hrw] at he
    obtain ⟨p, hp⟩ := mergeEdgePair_key_props g _ av bv _ e he hk
    rw [hp]
    exact lookup_applySets_pair p _ _

/-- Witness for `covered_by_attribute_set`: one record with
billing_amount "1250.50" (edge created with the decimal 2501/2) and one
with "N/A" (edge created, billing_amount absent). -/
theorem covered_by_attribute_set_witness :
    (countKey (relRow gVisitPayer coveredBySpec rowBilled) 0 1 "COVERED_BY" = 1 ∧
     lookupProp (Edge.props ⟨0, 1, "COVERED_BY",
         [("service_date", .str "2021-05-01"),
          ("billing_amount", .rat (mkRat 2501 2))]⟩) "service_date" = some (.str "2021-05-01") ∧
     lookupProp (Edge.props ⟨0, 1, "COVERED_BY",
         [("service_date", .str "2021-05-01"),
          ("billing_amount", .rat (mkRat 2501 2))]⟩) "billing_amount" =
       some (.rat (mkRat 2501 2))) ∧
    (countKey (relRow gVisitPayer coveredBySpec rowUnbilled) 0 1 "COVERED_BY" = 1 ∧
     lookupProp (Edge.props ⟨0, 1, "COVERED_BY",
         [("service_date", .str "2021-05-01")]⟩) "service_date" = some (.str "2021-05-01") ∧
     lookupProp (Edge.props ⟨0, 1, "COVERED_BY",
         [("service_date", .str "2021-05-01")]⟩) "billing_amount" = none) := by
  have h1 := covered_by_attribute_set gVisitPayer rowBilled 0 1 (by decide) (by decide) (by decide)
  have h2 := covered_by_attribute_set gVisitPayer rowUnbilled 0 1 (by decide) (by decide) (by decide)
  have e1 := h1.2 ⟨0, 1, "COVERED_BY",
    [("service_date", .str "2021-05-01"), ("billing_amount", .rat (mkRat 2501 2))]⟩
    (by decide) (by decide)
  have e2 := h2.2 ⟨0, 1, "COVERED_BY", [("service_date", .str "2021-05-01")]⟩
    (by decide) (by decide)
  refine ⟨⟨h1.1, ?_, ?_⟩, ⟨h2.1, ?_, ?_⟩⟩
  · rw [e1.1]; decide
  · rw [e1.2]; decide
  · rw [e2.1]; decide
  · rw [e2.2]; decide


theorem anyKey_iff_mem (g : Graph) (a b : Nat) (t : String) :
    g.edges.any (fun e => edgeKeyIs e a b t) = true ↔ (a, b, t) ∈ edgeKeys g := by
  rw [List.any_eq_true]
  unfold edgeKeys
  constructor
  · rintro ⟨e, he, hk⟩
    refine List.mem_map.mpr ⟨e, he, ?_⟩
    have h3 : (e.src = a ∧ e.tgt = b) ∧ e.relType = t := by
      simpa [edgeKeyIs, Bool.and_eq_true, beq_iff_eq] using hk
    simp [edgeKey, h3.1.1, h3.1.2, h3.2]
  · intro hx
    rcases List.mem_map.mp hx with ⟨e, he, hk⟩
    refine ⟨e, he, ?_⟩
    have h1 : e.src = a := congrArg (fun q => q.fst) hk
    have h2 : e.tgt = b := congrArg (fun q => q.snd.fst) hk
    have h3 : e.relType = t := congrArg (fun q => q.snd.snd) hk
    simp [edgeKeyIs, h1, h2, h3]

theorem edgeKeys_map_update (es : List Edge) (u : Edge → Edge)
    (hu : ∀ e, edgeKey (u e) = edgeKey e) : (es.map u).map edgeKey = es.map edgeKey := by
  induction es with
  | nil => rfl
  | cons e t ih => simp [List.map_cons, hu, ih]

theorem edgeKeys_mergeEdgePair (g : Graph) (t : String) (a b : Nat)
    (sets : List (String × Option PropVal)) (x : Nat × Nat × String) :
    x ∈ edgeKeys (mergeEdgePair g t a b sets) ↔ x ∈ edgeKeys g ∨ x = (a, b, t) := by
  unfold mergeEdgePair
  cases h : g.edges.any (fun e => edgeKeyIs e a b t)
  · rw [if_neg Bool.false_ne_true]
    simp only [edgeKeys, List.map_append, List.mem_append]
    simp [edgeKey]
  · rw [if_pos rfl]
    have hkeys : ∀ gs : List Edge,
        (gs.map (fun e => if edgeKeyIs e a b t then
            { e with props := applySets e.props sets } else e)).map edgeKey =
          gs.map edgeKey := by
      intro gs
      refine edgeKeys_map_update gs _ (fun e => ?_)
      cases hc : edgeKeyIs e a b t <;> rfl
    show x ∈ (g.edges.map _).map edgeKey ↔ _
    rw [hkeys]
    have hmem : (a, b, t) ∈ edgeKeys g := (anyKey_iff_mem g a b t).mp h
    constructor
    · exact Or.inl
    · rintro (hx | rfl)
      · exact hx
      · exact hmem

theorem inferSteps_keys :
    ∀ (l : List (Node × Node)) (g : Graph) (x : Nat × Nat × String),
      x ∈ edgeKeys (inferSteps g l) ↔
        x ∈ edgeKeys g ∨ ∃ ph ∈ l, employsCond ph.fst ph.snd = true ∧
          x = (ph.fst.nodeId, ph.snd.nodeId, "EMPLOYS") := by
  intro l
  induction l with
  | nil => intro g x; simp [inferSteps]
  | cons ph rest ih =>
    intro g x
    rw [inferSteps]
    cases hc : employsCond ph.fst ph.snd
    · rw [if_neg Bool.false_ne_true, ih]
      constructor
      · rintro (hx | ⟨q, hq, hcq, hxq⟩)
        · exact Or.inl hx
        · exact Or.inr ⟨q, List.mem_cons_of_mem _ hq, hcq, hxq⟩
      · rintro (hx | ⟨q, hq, hcq, hxq⟩)
        · exact Or.inl hx
        · rcases List.mem_cons.mp hq with rfl | hq'
          · rw [hc] at hcq; cases hcq
          · exact Or.inr ⟨q, hq', hcq, hxq⟩
    · rw [if_pos rfl, ih, edgeKeys_mergeEdgePair]
      constructor
      · rintro ((hx | rfl) | ⟨q, hq, hcq, hxq⟩)
        · exact Or.inl hx
        · exact Or.inr ⟨ph, List.mem_cons_self _ _, hc, rfl⟩
        · exact Or.inr ⟨q, List.mem_cons_of_mem _ hq, hcq, hxq⟩
      · rintro (hx | ⟨q, hq, hcq, hxq⟩)
        · exact Or.inl (Or.inl hx)
        · rcases List.mem_cons.mp hq with rfl | hq'
          · exact Or.inl (Or.inr hxq)
          · exact Or.inr ⟨q, hq', hcq, hxq⟩

theorem mem_nodePairs :
    ∀ (ps hs : List Node) (ph : Node × Node),
      ph ∈ nodePairs ps hs ↔ ph.fst ∈ ps ∧ ph.snd ∈ hs := by
  intro ps
  induction ps with
  | nil => intro hs ph; simp [nodePairs]
  | cons p rest ih =>
    intro hs ph
    rw [nodePairs]
    simp only [List.mem_append, List.mem_map, List.mem_cons, ih]
    constructor
    · rintro (⟨h, hh, rfl⟩ | ⟨h1, h2⟩)
      · exact ⟨Or.inl rfl, hh⟩
      · exact ⟨Or.inr h1, h2⟩
    · rintro ⟨h1 | h1, h2⟩
      · left
        exact ⟨ph.snd, h2, by rw [← h1]⟩
      · exact Or.inr ⟨h1, h2⟩

theorem mergeEdgePair_noop (g : Graph) (t : String) (a b : Nat)
    (h : (a, b, t) ∈ edgeKeys g) : mergeEdgePair g t a b [] = g := by
  unfold mergeEdgePair
  rw [if_pos ((anyKey_iff_mem g a b t).mpr h)]
  have hid : ∀ e : Edge,
      (if edgeKeyIs e a b t then { e with props := applySets e.props [] } else e) = e := by
    intro e
    cases hc : edgeKeyIs e a b t <;> rfl
  simp [hid]

theorem inferSteps_noop :
    ∀ (l : List (Node × Node)) (g : Graph),
      (∀ ph ∈ l, employsCond ph.fst ph.snd = true →
        (ph.fst.nodeId, ph.snd.nodeId, "EMPLOYS") ∈ edgeKeys g) →
      inferSteps g l = g := by
  intro l
  induction l with
  | nil => intro g _; rfl
  | cons ph rest ih =>
    intro g hall
    rw [inferSteps]
    cases hc : employsCond ph.fst ph.snd
    · rw [if_neg Bool.false_ne_true]
      exact ih g (fun q hq hcq => hall q (List.mem_cons_of_mem _ hq) hcq)
    · rw [if_pos rfl, mergeEdgePair_noop g _ _ _ (hall ph (List.mem_cons_self _ _) hc)]
      exact ih g (fun q hq hcq => hall q (List.mem_cons_of_mem _ hq) hcq)

theorem inferSteps_parts :
    ∀ (l : List (Node × Node)) (g : Graph),
      (inferSteps g l).nodes = g.nodes ∧
      (inferSteps g l).nextId = g.nextId ∧
      (inferSteps g l).constraints = g.constraints := by
  intro l
  induction l with
  | nil => intro g; exact ⟨rfl, rfl, rfl⟩
  | cons ph rest ih =>
    intro g
    rw [inferSteps]
    cases hc : employsCond ph.fst ph.snd
    · rw [if_neg Bool.false_ne_true]
      exact ih g
    · rw [if_pos rfl]
      obtain ⟨h1, h2, h3⟩ := ih (mergeEdgePair g "EMPLOYS" ph.fst.nodeId ph.snd.nodeId [])
      obtain ⟨p1, p2, p3⟩ := mergeEdgePair_parts g "EMPLOYS" ph.fst.nodeId ph.snd.nodeId []
      exact ⟨h1.trans p1, h2.trans p2, h3.trans p3⟩

theorem inferEmploys_parts (g : Graph) :
    (inferEmploys g).nodes = g.nodes ∧
    (inferEmploys g).nextId = g.nextId ∧
    (inferEmploys g).constraints = g.constraints :=
  inferSteps_parts _ g

theorem employsCond_iff (p h : Node) :
    employsCond p h = true ↔
      ∃ pid hid : Int, lookupProp p.props "id" = some (.int pid) ∧
        lookupProp h.props "id" = some (.int hid) ∧ (pid + hid) % 30 = 0 := by
  unfold employsCond
  cases hp : lookupProp p.props "id" with
  | none => simp [hp]
  | some v =>
    cases v with
    | int pid =>
      cases hh : lookupProp h.props "id" with
      | none => simp [hh]
      | some w =>
        cases w with
        | int hid => simp [hh, beq_iff_eq]
        | str s => simp [hh]
        | rat q => simp [hh]
    | str s => simp
    | rat q => simp

/-- C4: the inference statement creates an EMPLOYS edge from a Physician
node to a Hospital node exactly when both carry integer ids whose sum is
divisible by 30, and for no other pair, whenever no EMPLOYS edge is
present beforehand; recomputing the rule over the same node set
reproduces exactly the same store state. -/
theorem employs_inference (g : Graph)
    (hpre : ∀ e ∈ g.edges, e.relType ≠ "EMPLOYS") :
    (∀ a b : Nat,
      (a, b, "EMPLOYS") ∈ edgeKeys (inferEmploys g) ↔
        ∃ p h : Node, p ∈ g.nodes ∧ h ∈ g.nodes ∧
          p.label = "Physician" ∧ h.label = "Hospital" ∧
          (∃ pid hid : Int, lookupProp p.props "id" = some (.int pid) ∧
            lookupProp h.props "id" = some (.int hid) ∧ (pid + hid) % 30 = 0) ∧
          a = p.nodeId ∧ b = h.nodeId) ∧
    inferEmploys (inferEmploys g) = inferEmploys g := by
  constructor
  · intro a b
    rw [show inferEmploys g = inferSteps g
          (nodePairs (g.nodes.filter (fun n => n.label == "Physician"))
                     (g.nodes.filter (fun n => n.label == "Hospital"))) from rfl,
        inferSteps_keys]
    have hnot : ¬ ((a, b, "EMPLOYS") ∈ edgeKeys g) := by
      intro hx
      rcases List.mem_map.mp hx with ⟨e, he, hk⟩
      exact hpre e he (congrArg (fun q => q.snd.snd) hk)
    constructor
    · rintro (hx | ⟨ph, hmem, hcond, hx⟩)
      · exact absurd hx hnot
      · rcases (mem_nodePairs _ _ _).mp hmem with ⟨hp, hh⟩
        rcases List.mem_filter.mp hp with ⟨hp1, hp2⟩
        rcases List.mem_filter.mp hh with ⟨hh1, hh2⟩
        have hx1 : a = ph.fst.nodeId := congrArg (fun q => q.fst) hx
        have hx2 : b = ph.snd.nodeId := congrArg (fun q => q.snd.fst) hx
        exact ⟨ph.fst, ph.snd, hp1, hh1, by simpa using hp2, by simpa using hh2,
               (employsCond_iff _ _).mp hcond, hx1, hx2⟩
    · rintro ⟨p, h, hp1, hh1, hlab1, hlab2, hcond, rfl, rfl⟩
      right
      exact ⟨(p, h),
        (mem_nodePairs _ _ _).mpr
          ⟨List.mem_filter.mpr ⟨hp1, by simp [hlab1]⟩,
           List.mem_filter.mpr ⟨hh1, by simp [hlab2]⟩⟩,
        (employsCond_iff _ _).mpr hcond, rfl⟩
  · show inferSteps (inferEmploys g)
      (nodePairs ((inferEmploys g).nodes.filter (fun n => n.label == "Physician"))
                 ((inferEmploys g).nodes.filter (fun n => n.label == "Hospital"))) =
      inferEmploys g
    have hnodes : (inferEmploys g).nodes = g.nodes := (inferEmploys_parts g).1
    apply inferSteps_noop
    intro ph hmem hcond
    rw [show inferEmploys g = inferSteps g
          (nodePairs (g.nodes.filter (fun n => n.label == "Physician"))
                     (g.nodes.filter (fun n => n.label == "Hospital"))) from rfl,
        inferSteps_keys]
    right
    rw [hnodes] at hmem
    exact ⟨ph, hmem, hcond, rfl⟩

/-- Witness for `employs_inference`: Physician ids {3, 12}, Hospital ids
{9, 18, 27}; (3, 27) sums to 30 so its EMPLOYS edge exists, (3, 18)
sums to 21 so no edge between those nodes exists, and re-running the
inference changes nothing. -/
theorem employs_inference_witness :
    (0, 4, "EMPLOYS") ∈ edgeKeys (inferEmploys gEmployEx) ∧
    ¬ ((0, 3, "EMPLOYS") ∈ edgeKeys (inferEmploys gEmployEx)) ∧
    inferEmploys (inferEmploys gEmployEx) = inferEmploys gEmployEx := by
  have h := employs_inference gEmployEx (by decide)
  refine ⟨?_, by decide, h.2⟩
  exact (h.1 0 4).mpr ⟨⟨0, "Physician", [("id", .int 3)]⟩, ⟨4, "Hospital", [("id", .int 27)]⟩,
    by decide, by decide, rfl, rfl, ⟨3, 27, rfl, rfl, by decide⟩, rfl, rfl⟩


theorem lookup_applySets_diff (k' : String) :
    ∀ (sets : List (String × Option PropVal)) (ps : Props),
      (∀ kv ∈ sets, (kv.fst == k') = false) →
      lookupProp (applySets ps sets) k' = lookupProp ps k' := by
  intro sets
  induction sets with
  | nil => intro ps _; rfl
  | cons kv rest ih =>
    intro ps hall
    rw [applySets, ih _ (fun q hq => hall q (List.mem_cons_of_mem _ hq))]
    exact lookup_setOne_diff ps kv.fst k' kv.snd (hall kv (List.mem_cons_self _ _))

theorem liftPattern_cons_some (k : String) (vo : Option PropVal)
    (rest : List (String × Option PropVal)) (pat : Props)
    (h : liftPattern ((k, vo) :: rest) = some pat) :
    ∃ v prest, vo = some v ∧ liftPattern rest = some prest ∧ pat = (k, v) :: prest := by
  cases vo with
  | none => simp [liftPattern] at h
  | some v =>
    cases hr : liftPattern rest with
    | none =>
      simp only [liftPattern, hr, Option.map] at h
      exact Option.noConfusion h
    | some prest =>
      simp only [liftPattern, hr, Option.map] at h
      injection h with h2
      exact ⟨v, prest, rfl, rfl, h2.symm⟩

theorem countIdNodes_setmap (g : Graph) (label0 : String) (pat : Props)
    (sets : List (String × Option PropVal))
    (hsets : ∀ kv ∈ sets, (kv.fst == "id") = false) (label : String) (v : Int) :
    countIdNodes { g with nodes := g.nodes.map (fun n =>
        if nodeMatches n label0 pat then { n with props := applySets n.props sets } else n) }
        label v
      = countIdNodes g label v := by
  show ((g.nodes.map _).filter _).length = _
  rw [filter_length_map_update]
  · rfl
  · intro n
    cases hc : nodeMatches n label0 pat
    · rw [if_neg Bool.false_ne_true]
    · rw [if_pos rfl]
      show ((n.label == label) && (lookupProp (applySets n.props sets) "id" == some (PropVal.int v)))
         = ((n.label == label) && (lookupProp n.props "id" == some (PropVal.int v)))
      rw [lookup_applySets_diff "id" sets n.props hsets]

theorem mergeNodeRow_ok_cases (g g' : Graph) (spec : NodeSpec) (r : Row) (pat : Props)
    (hlift : liftPattern (mergePatOf spec r) = some pat)
    (hok : mergeNodeRow g spec r = .ok g') :
    (anyNodeMatch g spec.label pat = true ∧
      g' = { g with nodes := g.nodes.map (fun n =>
        if nodeMatches n spec.label pat then
          { n with props := applySets n.props (setsOf spec r) } else n) }) ∨
    (anyNodeMatch g spec.label pat = false ∧ violatesConstraint g spec.label pat = false ∧
      g' = { g with nextId := g.nextId + 1,
                    nodes := g.nodes ++
                      [⟨g.nextId, spec.label, applySets pat (setsOf spec r)⟩] }) := by
  have hok2 : (if anyNodeMatch g spec.label pat then
        Except.ok ({ g with nodes := g.nodes.map (fun n =>
          if nodeMatches n spec.label pat then
            { n with props := applySets n.props (setsOf spec r) } else n) } : Graph)
      else if violatesConstraint g spec.label pat then
        (Except.error LoadErr.constraintViolation : Except LoadErr Graph)
      else Except.ok { g with nextId := g.nextId + 1,
                              nodes := g.nodes ++
                                [⟨g.nextId, spec.label, applySets pat (setsOf spec r)⟩] })
      = Except.ok g' := by
    rw [← hok]
    unfold mergeNodeRow
    rw [hlift]
  cases hm : anyNodeMatch g spec.label pat
  · rw [hm] at hok2
    rw [if_neg Bool.false_ne_true] at hok2
    cases hv : violatesConstraint g spec.label pat
    · rw [hv] at hok2
      rw [if_neg Bool.false_ne_true] at hok2
      injection hok2 with h2
      exact Or.inr ⟨rfl, rfl, h2.symm⟩
    · rw [hv] at hok2
      rw [if_pos rfl] at hok2
      cases hok2
  · rw [hm] at hok2
    rw [if_pos rfl] at hok2
    injection hok2 with h2
    exact Or.inl ⟨rfl, h2.symm⟩

theorem mergeNodeRow_unique (g g' : Graph) (spec : NodeSpec) (r : Row)
    (hset : ∀ kv ∈ spec.setProps, (kv.fst == "id") = false)
    (hcon : (spec.label, "id") ∈ g.constraints)
    (hok : mergeNodeRow g spec r = .ok g')
    (hinv : ∀ label v, countIdNodes g label v ≤ 1) :
    (∀ label v, countIdNodes g' label v ≤ 1) ∧ g'.constraints = g.constraints := by
  have hsets : ∀ kv ∈ setsOf spec r, (kv.fst == "id") = false := by
    intro kv hkv
    rcases List.mem_map.mp hkv with ⟨q, hq, rfl⟩
    exact hset q hq
  cases hlift : liftPattern (mergePatOf spec r) with
  | none =>
    unfold mergeNodeRow at hok
    rw [hlift] at hok
    cases hok
  | some pat =>
    rcases mergeNodeRow_ok_cases g g' spec r pat hlift hok with
      ⟨hmatch, rfl⟩ | ⟨hmatch, hviol, rfl⟩
    · exact ⟨fun label v => by
        rw [countIdNodes_setmap g spec.label pat (setsOf spec r) hsets label v]
        exact hinv label v, rfl⟩
    · refine ⟨?_, rfl⟩
      intro label v
      rw [mergePatOf] at hlift
      obtain ⟨iv, prest, hvo, hrest, hpat⟩ := liftPattern_cons_some _ _ _ _ hlift
      have hpid : lookupProp pat "id" = some iv := by
        rw [hpat]
        exact lookupProp_cons_hit ("id", iv) prest "id" (by simp)
      have hlook : lookupProp (applySets pat (setsOf spec r)) "id" = some iv := by
        rw [lookup_applySets_diff "id" _ _ hsets]
        exact hpid
      show ((g.nodes ++ ([⟨g.nextId, spec.label, applySets pat (setsOf spec r)⟩] : List Node)).filter
            (fun n => n.label == label && lookupProp n.props "id" == some (PropVal.int v))).length ≤ 1
      rw [List.filter_append, List.length_append]
      cases hp : ((⟨g.nextId, spec.label, applySets pat (setsOf spec r)⟩ : Node).label == label &&
          lookupProp (⟨g.nextId, spec.label, applySets pat (setsOf spec r)⟩ : Node).props "id"
            == some (PropVal.int v))
      · have hone : (([⟨g.nextId, spec.label, applySets pat (setsOf spec r)⟩] : List Node).filter
            (fun n => n.label == label && lookupProp n.props "id" == some (PropVal.int v))).length = 0 := by
          simp only [List.filter_cons, List.filter_nil, hp, Bool.false_eq_true, if_false,
                     List.length_nil]
        rw [hone]
        have hbase : (List.filter (fun n => n.label == label &&
            lookupProp n.props "id" == some (PropVal.int v)) g.nodes).length ≤ 1 := hinv label v
        omega
      · rw [Bool.and_eq_true] at hp
        have hlab : spec.label = label := by simpa using hp.1
        have hivv : iv = PropVal.int v := by
          have h2 := hp.2
          rw [show (⟨g.nextId, spec.label, applySets pat (setsOf spec r)⟩ : Node).props
                = applySets pat (setsOf spec r) from rfl, hlook] at h2
          simpa using h2
        subst hlab
        subst hivv
        have hany : g.nodes.any (fun n => n.label == spec.label &&
            lookupProp n.props "id" == some (PropVal.int v)) = false := by
          cases hg : g.nodes.any (fun n => n.label == spec.label &&
              lookupProp n.props "id" == some (PropVal.int v))
          · rfl
          · exfalso
            have hvt : violatesConstraint g spec.label pat = true := by
              apply List.any_eq_true.mpr
              refine ⟨(spec.label, "id"), hcon, ?_⟩
              simp [hpid, hg]
            rw [hviol] at hvt
            cases hvt
        have hfil : g.nodes.filter (fun n => n.label == spec.label &&
            lookupProp n.props "id" == some (PropVal.int v)) = [] :=
          filter_nil_of_any_false _ _ hany
        have hone : (([⟨g.nextId, spec.label, applySets pat (setsOf spec r)⟩] : List Node).filter
            (fun n => n.label == spec.label &&
              lookupProp n.props "id" == some (PropVal.int v))).length = 1 := by
          simp only [List.filter_cons, List.filter_nil]
          rw [if_pos]
          · rfl
          · show ((⟨g.nextId, spec.label, applySets pat (setsOf spec r)⟩ : Node).label == spec.label
                && lookupProp (applySets pat (setsOf spec r)) "id" == some (PropVal.int v)) = true
            rw [hlook]
            simp
        rw [hfil, hone]
        simp

theorem loadNodeRows_unique (spec : NodeSpec)
    (hset : ∀ kv ∈ spec.setProps, (kv.fst == "id") = false) :
    ∀ (rows : List Row) (g g' : Graph),
      (spec.label, "id") ∈ g.constraints →
      loadNodeRows spec rows g = .ok g' →
      (∀ label v, countIdNodes g label v ≤ 1) →
      (∀ label v, countIdNodes g' label v ≤ 1) ∧ g'.constraints = g.constraints := by
  intro rows
  induction rows with
  | nil =>
    intro g g' _ hok hinv
    cases hok
    exact ⟨hinv, rfl⟩
  | cons r rs ih =>
    intro g g' hcon hok hinv
    rw [loadNodeRows] at hok
    cases hM : mergeNodeRow g spec r with
    | error e => rw [hM] at hok; cases hok
    | ok ga =>
      rw [hM] at hok
      obtain ⟨hinva, hconsa⟩ := mergeNodeRow_unique g ga spec r hset hcon hM hinv
      obtain ⟨hinv', hcons'⟩ := ih ga g' (by rw [hconsa]; exact hcon) hok hinva
      exact ⟨hinv', hcons'.trans hconsa⟩

theorem set_uniqueness_constraints_parts (g : Graph) (label : String) :
    (set_uniqueness_constraints g label).nodes = g.nodes ∧
    (set_uniqueness_constraints g label).nextId = g.nextId ∧
    (set_uniqueness_constraints g label).edges = g.edges := by
  unfold set_uniqueness_constraints
  split <;> exact ⟨rfl, rfl, rfl⟩

theorem set_uniqueness_constraints_mem (g : Graph) (label : String) :
    (label, constraintField) ∈ (set_uniqueness_constraints g label).constraints := by
  unfold set_uniqueness_constraints
  cases h : g.constraints.any (fun c => c.fst == label && c.snd == constraintField)
  · rw [if_neg Bool.false_ne_true]
    simp
  · rw [if_pos rfl]
    rcases List.any_eq_true.mp h with ⟨c, hc, hcb⟩
    have hce : c.fst = label ∧ c.snd = constraintField := by
      simpa [Bool.and_eq_true] using hcb
    have : c = (label, constraintField) := by
      cases c
      simp only at hce
      rw [hce.1, hce.2]
    rw [← this]
    exact hc

theorem set_uniqueness_constraints_mono (g : Graph) (label : String)
    (c : String × String) (hc : c ∈ g.constraints) :
    c ∈ (set_uniqueness_constraints g label).constraints := by
  unfold set_uniqueness_constraints
  split
  · exact hc
  · exact List.mem_append_left _ hc

theorem runStages_pres (inp : Inputs) (P : Graph → Prop)
    (hstep : ∀ s g g', execStage inp g s = .ok g' → P g → P g') :
    ∀ (ss : List Stage) (g : Graph), P g → P (runStages inp ss g).fst := by
  intro ss
  induction ss with
  | nil => intro g h; exact h
  | cons s t ih =>
    intro g h
    rw [runStages]
    cases hEx : execStage inp g s with
    | error e => exact h
    | ok g' => exact ih g' (hstep s g g' hEx h)

theorem runStages_append (inp : Inputs) :
    ∀ (l1 l2 : List Stage) (g : Graph),
      runStages inp (l1 ++ l2) g =
        match runStages inp l1 g with
        | (g1, none) => runStages inp l2 g1
        | (g1, some e) => (g1, some e) := by
  intro l1
  induction l1 with
  | nil => intro l2 g; simp [runStages]
  | cons s t ih =>
    intro l2 g
    rw [List.cons_append, runStages, runStages]
    cases hEx : execStage inp g s with
    | error e => rfl
    | ok g' => exact ih l2 g'


theorem gcAfter_nodes (g : Graph) : (gcAfter g).nodes = g.nodes := by
  unfold gcAfter
  rw [(set_uniqueness_constraints_parts _ _).1, (set_uniqueness_constraints_parts _ _).1,
      (set_uniqueness_constraints_parts _ _).1, (set_uniqueness_constraints_parts _ _).1,
      (set_uniqueness_constraints_parts _ _).1, (set_uniqueness_constraints_parts _ _).1]

theorem gcAfter_mem (g : Graph) (k : NodeKind) :
    ((nodeSpec k).label, "id") ∈ (gcAfter g).constraints := by
  cases k
  · exact set_uniqueness_constraints_mono _ _ _ (set_uniqueness_constraints_mono _ _ _
      (set_uniqueness_constraints_mono _ _ _ (set_uniqueness_constraints_mono _ _ _
        (set_uniqueness_constraints_mono _ _ _ (set_uniqueness_constraints_mem _ _)))))
  · exact set_uniqueness_constraints_mono _ _ _ (set_uniqueness_constraints_mono _ _ _
      (set_uniqueness_constraints_mono _ _ _ (set_uniqueness_constraints_mono _ _ _
        (set_uniqueness_constraints_mem _ _))))
  · exact set_uniqueness_constraints_mono _ _ _ (set_uniqueness_constraints_mono _ _ _
      (set_uniqueness_constraints_mono _ _ _ (set_uniqueness_constraints_mem _ _)))
  · exact set_uniqueness_constraints_mono _ _ _ (set_uniqueness_constraints_mono _ _ _
      (set_uniqueness_constraints_mem _ _))
  · exact set_uniqueness_constraints_mono _ _ _ (set_uniqueness_constraints_mem _ _)
  · exact set_uniqueness_constraints_mem _ _

theorem runPipeline_unique (inp : Inputs) (g : Graph)
    (hinv : ∀ label v, countIdNodes g label v ≤ 1) :
    ∀ label v, countIdNodes (runPipeline inp g).fst label v ≤ 1 := by
  have hsplit : runPipeline inp g = runStages inp dataStages (gcAfter g) := by
    rw [runPipeline, show pipelineOrder = constraintStages ++ dataStages from rfl,
        runStages_append]
    rfl
  rw [hsplit]
  have hstep : ∀ s g1 g2, execStage inp g1 s = .ok g2 →
      ((∀ label v, countIdNodes g1 label v ≤ 1) ∧
        (∀ k : NodeKind, ((nodeSpec k).label, "id") ∈ g1.constraints)) →
      ((∀ label v, countIdNodes g2 label v ≤ 1) ∧
        (∀ k : NodeKind, ((nodeSpec k).label, "id") ∈ g2.constraints)) := by
    intro s g1 g2 hEx hP1
    cases s with
    | constraintFor k =>
      simp only [execStage] at hEx
      injection hEx with h2
      subst h2
      constructor
      · intro label v
        show (((set_uniqueness_constraints g1 (nodeSpec k).label).nodes.filter
          (fun n => n.label == label && lookupProp n.props "id" == some (PropVal.int v)))).length ≤ 1
        rw [(set_uniqueness_constraints_parts _ _).1]
        exact hP1.1 label v
      · intro k'
        exact set_uniqueness_constraints_mono _ _ _ (hP1.2 k')
    | nodeLoad k =>
      simp only [execStage] at hEx
      have hset : ∀ kv ∈ (nodeSpec k).setProps, (kv.fst == "id") = false := by
        cases k <;> decide
      obtain ⟨h1, h2⟩ := loadNodeRows_unique (nodeSpec k) hset (nodeCsv k inp) g1 g2
        (hP1.2 k) hEx hP1.1
      refine ⟨h1, fun k' => ?_⟩
      rw [h2]
      exact hP1.2 k'
    | relLoad k =>
      simp only [execStage] at hEx
      injection hEx with h2
      subst h2
      obtain ⟨hn, _, hc⟩ := loadRelRows_parts (relSpec k) (relCsv k inp) g1
      constructor
      · intro label v
        show (((loadRelRows (relSpec k) (relCsv k inp) g1).nodes.filter
          (fun n => n.label == label && lookupProp n.props "id" == some (PropVal.int v)))).length ≤ 1
        rw [hn]
        exact hP1.1 label v
      · intro k'
        rw [hc]
        exact hP1.2 k'
    | inference =>
      simp only [execStage] at hEx
      injection hEx with h2
      subst h2
      obtain ⟨hn, _, hc⟩ := inferSteps_parts _ g1
      constructor
      · intro label v
        show (((inferEmploys g1).nodes.filter
          (fun n => n.label == label && lookupProp n.props "id" == some (PropVal.int v)))).length ≤ 1
        rw [show (inferEmploys g1).nodes = g1.nodes from hn]
        exact hP1.1 label v
      · intro k'
        rw [show (inferEmploys g1).constraints = g1.constraints from hc]
        exact hP1.2 k'
  have hbase : (∀ label v, countIdNodes (gcAfter g) label v ≤ 1) ∧
      (∀ k : NodeKind, ((nodeSpec k).label, "id") ∈ (gcAfter g).constraints) := by
    constructor
    · intro label v
      show (((gcAfter g).nodes.filter
        (fun n => n.label == label && lookupProp n.props "id" == some (PropVal.int v)))).length ≤ 1
      rw [gcAfter_nodes]
      exact hinv label v
    · exact gcAfter_mem g
  exact fun label v =>
    (runStages_pres inp _ hstep dataStages (gcAfter g) hbase).1 label v

/-- C3: identifier uniqueness is an invariant of the store: in any state
reachable from the empty store by whole pipeline runs, there is at most
one node of any kind with any given integer identifier value. -/
theorem identifier_uniqueness_invariant :
    ∀ g : Graph, Reachable g → ∀ (label : String) (v : Int), countIdNodes g label v ≤ 1 := by
  intro g hg
  induction hg with
  | start => intro label v; exact Nat.zero_le 1
  | step g' inp _ ih => exact runPipeline_unique inp g' ih

/-- Witness for `identifier_uniqueness_invariant` at a state reached by
one concrete run. -/
theorem identifier_uniqueness_invariant_witness :
    countIdNodes (runPipeline (hospitalOnlyInputs "General") emptyGraph).fst "Hospital" 1 ≤ 1 :=
  identifier_uniqueness_invariant _
    (Reachable.step emptyGraph (hospitalOnlyInputs "General") Reachable.start) "Hospital" 1


theorem map_id_of {α : Type} (f : α → α) :
    ∀ l : List α, (∀ a ∈ l, f a = a) → l.map f = l := by
  intro l
  induction l with
  | nil => intro _; rfl
  | cons a t ih =>
    intro h
    rw [List.map_cons, h a (List.mem_cons_self _ _), ih (fun b hb => h b (List.mem_cons_of_mem _ hb))]

theorem liftPattern_keys : ∀ (l : List (String × Option PropVal)) (pat : Props),
    liftPattern l = some pat → pat.map Prod.fst = l.map Prod.fst := by
  intro l
  induction l with
  | nil =>
    intro pat h
    simp only [liftPattern, Option.some.injEq] at h
    rw [← h]
    rfl
  | cons kv rest ih =>
    intro pat h
    obtain ⟨v, prest, hvo, hrest, hpat⟩ := liftPattern_cons_some kv.fst kv.snd rest pat h
    subst hpat
    rw [List.map_cons, List.map_cons, ih prest hrest]

theorem lookup_self_of_nodup : ∀ pat : Props, (pat.map Prod.fst).Nodup →
    ∀ kv ∈ pat, lookupProp pat kv.fst = some kv.snd := by
  intro pat
  induction pat with
  | nil => intro _ kv h; cases h
  | cons a t ih =>
    intro hnd kv hkv
    rw [List.map_cons] at hnd
    have hnd' := List.nodup_cons.mp hnd
    rcases List.mem_cons.mp hkv with rfl | hkv'
    · exact lookupProp_cons_hit _ _ _ (by simp)
    · have hmem : kv.fst ∈ t.map Prod.fst := List.mem_map.mpr ⟨kv, hkv', rfl⟩
      have hne : (a.fst == kv.fst) = false := by
        have hne' : a.fst ≠ kv.fst := fun he => hnd'.1 (he ▸ hmem)
        simpa using hne'
      rw [lookupProp_cons_miss _ _ _ hne]
      exact ih hnd'.2 kv hkv'

theorem patMatches_self (pat : Props) (hnd : (pat.map Prod.fst).Nodup) :
    patMatches pat pat = true := by
  apply List.all_eq_true.mpr
  intro kv hkv
  rw [lookup_self_of_nodup pat hnd kv hkv]
  simp

theorem mem_pairsOf : ∀ (xs ys : List Nat) (ab : Nat × Nat),
    ab ∈ pairsOf xs ys ↔ ab.fst ∈ xs ∧ ab.snd ∈ ys := by
  intro xs
  induction xs with
  | nil => intro ys ab; simp [pairsOf]
  | cons a rest ih =>
    intro ys ab
    rw [pairsOf]
    simp only [List.mem_append, List.mem_map, List.mem_cons, ih]
    constructor
    · rintro (⟨b, hb, rfl⟩ | ⟨h1, h2⟩)
      · exact ⟨Or.inl rfl, hb⟩
      · exact ⟨Or.inr h1, h2⟩
    · rintro ⟨h1 | h1, h2⟩
      · left
        exact ⟨ab.snd, h2, by rw [← h1]⟩
      · exact Or.inr ⟨h1, h2⟩

theorem mergeEdgeFan_keys (t : String) (sets : List (String × Option PropVal)) :
    ∀ (l : List (Nat × Nat)) (g : Graph) (x : Nat × Nat × String),
      x ∈ edgeKeys (mergeEdgeFan t sets g l) ↔
        x ∈ edgeKeys g ∨ ∃ ab ∈ l, x = (ab.fst, ab.snd, t) := by
  intro l
  induction l with
  | nil => intro g x; simp [mergeEdgeFan]
  | cons ab rest ih =>
    intro g x
    rw [mergeEdgeFan, ih, edgeKeys_mergeEdgePair]
    constructor
    · rintro ((hx | rfl) | ⟨q, hq, hxq⟩)
      · exact Or.inl hx
      · exact Or.inr ⟨ab, List.mem_cons_self _ _, rfl⟩
      · exact Or.inr ⟨q, List.mem_cons_of_mem _ hq, hxq⟩
    · rintro (hx | ⟨q, hq, hxq⟩)
      · exact Or.inl (Or.inl hx)
      · rcases List.mem_cons.mp hq with rfl | hq'
        · exact Or.inl (Or.inr hxq)
        · exact Or.inr ⟨q, hq', hxq⟩

theorem mergeNodeRow_ok_lift (g g' : Graph) (spec : NodeSpec) (r : Row)
    (hok : mergeNodeRow g spec r = .ok g') :
    ∃ pat, liftPattern (mergePatOf spec r) = some pat := by
  cases hl : liftPattern (mergePatOf spec r)
  · unfold mergeNodeRow at hok
    rw [hl] at hok
    cases hok
  · exact ⟨_, rfl⟩

theorem set_uniqueness_constraints_noop (g : Graph) (label : String)
    (h : (label, constraintField) ∈ g.constraints) :
    set_uniqueness_constraints g label = g := by
  unfold set_uniqueness_constraints
  rw [if_pos (List.any_eq_true.mpr ⟨(label, constraintField), h, by simp⟩)]

theorem forall2_mem_right {R : Node → Node → Prop} :
    ∀ {l2 l1 : List Node}, List.Forall₂ R l2 l1 → ∀ b ∈ l1, ∃ a ∈ l2, R a b := by
  intro l2 l1 h
  induction h with
  | nil => intro b hb; cases hb
  | cons hab htail ih =>
    intro b hb
    rcases List.mem_cons.mp hb with rfl | hb'
    · exact ⟨_, List.mem_cons_self _ _, hab⟩
    · obtain ⟨a, ha, hr⟩ := ih b hb'
      exact ⟨a, List.mem_cons_of_mem _ ha, hr⟩

theorem forall2_mem_left {R : Node → Node → Prop} :
    ∀ {l2 l1 : List Node}, List.Forall₂ R l2 l1 → ∀ a ∈ l2, ∃ b ∈ l1, R a b := by
  intro l2 l1 h
  induction h with
  | nil => intro a ha; cases ha
  | cons hab htail ih =>
    intro a ha
    rcases List.mem_cons.mp ha with rfl | ha'
    · exact ⟨_, List.mem_cons_self _ _, hab⟩
    · obtain ⟨b, hb, hr⟩ := ih a ha'
      exact ⟨b, List.mem_cons_of_mem _ hb, hr⟩

theorem forall2_map_left {R : Node → Node → Prop} (u : Node → Node)
    (hu : ∀ a b, R a b → R (u a) b) :
    ∀ {l2 l1 : List Node}, List.Forall₂ R l2 l1 → List.Forall₂ R (l2.map u) l1 := by
  intro l2 l1 h
  induction h with
  | nil => exact List.Forall₂.nil
  | cons hab htail ih => exact List.Forall₂.cons (hu _ _ hab) ih

theorem nodeSim_refl (n : Node) : nodeSim n n := ⟨rfl, rfl, fun _ => rfl, rfl⟩

theorem forall2_refl_nodeSim : ∀ l : List Node, List.Forall₂ nodeSim l l := by
  intro l
  induction l with
  | nil => exact List.Forall₂.nil
  | cons a t ih => exact List.Forall₂.cons (nodeSim_refl a) ih

theorem graphSim_refl (g : Graph) : graphSim g g :=
  ⟨rfl, forall2_refl_nodeSim g.nodes, rfl, rfl⟩

theorem presv_refl (g : Graph) : presv g g :=
  ⟨fun _ _ _ h => h, fun _ h => h, fun _ h => h⟩

theorem presv_trans {g1 g2 g3 : Graph} (h12 : presv g1 g2) (h23 : presv g2 g3) :
    presv g1 g3 :=
  ⟨fun l p hs h => h23.1 l p hs (h12.1 l p hs h),
   fun x h => h23.2.1 x (h12.2.1 x h),
   fun c h => h23.2.2 c (h12.2.2 c h)⟩


theorem patMatches_single_iff (ps : Props) (k : String) (v : PropVal) :
    patMatches ps [(k, v)] = true ↔ lookupProp ps k = some v := by
  simp [patMatches]

theorem presv_mergeNodeRow (g g' : Graph) (spec : NodeSpec) (r : Row)
    (hOK : specOK spec) (hok : mergeNodeRow g spec r = .ok g') : presv g g' := by
  obtain ⟨pat, hlift⟩ := mergeNodeRow_ok_lift g g' spec r hok
  rcases mergeNodeRow_ok_cases g g' spec r pat hlift hok with
    ⟨hmatch, rfl⟩ | ⟨hmatch, hviol, rfl⟩
  · rcases hOK with ⟨hnv, hsp, _⟩ | ⟨hlab, hattr, hnoid⟩
    · have hs0 : setsOf spec r = [] := by rw [setsOf, hsp]; rfl
      have hmap : g.nodes.map (fun n => if nodeMatches n spec.label pat then
          { n with props := applySets n.props (setsOf spec r) } else n) = g.nodes := by
        apply map_id_of
        intro n _
        rw [hs0]
        cases hc : nodeMatches n spec.label pat <;> rfl
      have hgeq : ({ g with nodes := g.nodes.map (fun n => if nodeMatches n spec.label pat then
          { n with props := applySets n.props (setsOf spec r) } else n) } : Graph) = g := by
        rw [hmap]
      rw [hgeq]
      exact presv_refl g
    · have hsets : ∀ kv ∈ setsOf spec r, (kv.fst == "id") = false := by
        intro kv hkv
        rcases List.mem_map.mp hkv with ⟨q, hq, rfl⟩
        exact hnoid q hq
      refine ⟨?_, fun x h => h, fun c h => h⟩
      intro label' pat' hs hm'
      rcases List.any_eq_true.mp hm' with ⟨n, hn, hnm⟩
      apply List.any_eq_true.mpr
      refine ⟨_, List.mem_map.mpr ⟨n, hn, rfl⟩, ?_⟩
      cases hc : nodeMatches n spec.label pat
      · rw [if_neg Bool.false_ne_true]
        exact hnm
      · rw [if_pos rfl]
        have hnlab : n.label = "Visit" := by
          unfold nodeMatches at hc
          rw [Bool.and_eq_true] at hc
          rw [← hlab]
          simpa using hc.1
        rcases hs with hnv' | hidp
        · exfalso
          have hlb : n.label = label' := by
            unfold nodeMatches at hnm
            rw [Bool.and_eq_true] at hnm
            simpa using hnm.1
          exact hnv' (by rw [← hlb, hnlab])
        · obtain ⟨v, rfl⟩ : ∃ v, pat' = [("id", v)] := by
            cases pat' with
            | nil => simp at hidp
            | cons a t =>
              cases t with
              | nil =>
                have ha : a.fst = "id" := by simpa using hidp
                exact ⟨a.snd, by rw [← ha]⟩
              | cons b t2 => simp at hidp
          unfold nodeMatches at hnm ⊢
          rw [Bool.and_eq_true] at hnm ⊢
          refine ⟨hnm.1, ?_⟩
          rw [show ({ n with props := applySets n.props (setsOf spec r) } : Node).props
                = applySets n.props (setsOf spec r) from rfl]
          apply (patMatches_single_iff _ _ _).mpr
          rw [lookup_applySets_diff "id" _ _ hsets]
          exact (patMatches_single_iff _ _ _).mp hnm.2
  · refine ⟨?_, fun x h => h, fun c h => h⟩
    intro label' pat' _ hm'
    show ((g.nodes ++ ([⟨g.nextId, spec.label, applySets pat (setsOf spec r)⟩] : List Node)).any
      (fun n => nodeMatches n label' pat')) = true
    rw [List.any_append]
    have hm2 : g.nodes.any (fun n => nodeMatches n label' pat') = true := hm'
    rw [hm2]
    rfl

theorem presv_loadNodeRows (spec : NodeSpec) (hOK : specOK spec) :
    ∀ (rows : List Row) (g g' : Graph),
      loadNodeRows spec rows g = .ok g' → presv g g' := by
  intro rows
  induction rows with
  | nil =>
    intro g g' hok
    cases hok
    exact presv_refl _
  | cons r rs ih =>
    intro g g' hok
    rw [loadNodeRows] at hok
    cases hM : mergeNodeRow g spec r with
    | error e => rw [hM] at hok; cases hok
    | ok ga =>
      rw [hM] at hok
      exact presv_trans (presv_mergeNodeRow g ga spec r hOK hM) (ih ga g' hok)

theorem presv_set_uniqueness (g : Graph) (label : String) :
    presv g (set_uniqueness_constraints g label) := by
  obtain ⟨hn, _, he⟩ := set_uniqueness_constraints_parts g label
  refine ⟨?_, ?_, ?_⟩
  · intro l p _ h
    show (set_uniqueness_constraints g label).nodes.any (fun n => nodeMatches n l p) = true
    rw [hn]
    exact h
  · intro x h
    show x ∈ (set_uniqueness_constraints g label).edges.map edgeKey
    rw [he]
    exact h
  · exact fun c => set_uniqueness_constraints_mono g label c

theorem presv_mergeEdgePair (g : Graph) (t : String) (a b : Nat)
    (sets : List (String × Option PropVal)) :
    presv g (mergeEdgePair g t a b sets) := by
  obtain ⟨hn, _, hc⟩ := mergeEdgePair_parts g t a b sets
  refine ⟨?_, ?_, ?_⟩
  · intro l p _ h
    show (mergeEdgePair g t a b sets).nodes.any (fun n => nodeMatches n l p) = true
    rw [hn]
    exact h
  · intro x h
    exact (edgeKeys_mergeEdgePair g t a b sets x).mpr (Or.inl h)
  · intro c h
    show c ∈ (mergeEdgePair g t a b sets).constraints
    rw [hc]
    exact h

theorem presv_mergeEdgeFan (t : String) (sets : List (String × Option PropVal)) :
    ∀ (l : List (Nat × Nat)) (g : Graph), presv g (mergeEdgeFan t sets g l) := by
  intro l
  induction l with
  | nil => intro g; exact presv_refl g
  | cons ab rest ih =>
    intro g
    rw [mergeEdgeFan]
    exact presv_trans (presv_mergeEdgePair g t ab.fst ab.snd sets) (ih _)

theorem presv_relRow (g : Graph) (spec : RelSpec) (r : Row) :
    presv g (relRow g spec r) :=
  presv_mergeEdgeFan _ _ _ g

theorem presv_loadRelRows (spec : RelSpec) :
    ∀ (rows : List Row) (g : Graph), presv g (loadRelRows spec rows g) := by
  intro rows
  induction rows with
  | nil => intro g; exact presv_refl g
  | cons r rs ih =>
    intro g
    rw [loadRelRows]
    exact presv_trans (presv_relRow g spec r) (ih _)

theorem presv_inferSteps : ∀ (l : List (Node × Node)) (g : Graph),
    presv g (inferSteps g l) := by
  intro l
  induction l with
  | nil => intro g; exact presv_refl g
  | cons ph rest ih =>
    intro g
    rw [inferSteps]
    cases hc : employsCond ph.fst ph.snd
    · rw [if_neg Bool.false_ne_true]
      exact ih g
    · rw [if_pos rfl]
      exact presv_trans (presv_mergeEdgePair g "EMPLOYS" ph.fst.nodeId ph.snd.nodeId []) (ih _)

theorem presv_inferEmploys (g : Graph) : presv g (inferEmploys g) :=
  presv_inferSteps _ g

theorem specOK_nodeSpec (k : NodeKind) : specOK (nodeSpec k) := by
  cases k
  · exact Or.inl ⟨by decide, rfl, by decide⟩
  · exact Or.inl ⟨by decide, rfl, by decide⟩
  · exact Or.inl ⟨by decide, rfl, by decide⟩
  · exact Or.inl ⟨by decide, rfl, by decide⟩
  · exact Or.inr ⟨rfl, rfl, by decide⟩
  · exact Or.inl ⟨by decide, rfl, by decide⟩

theorem presv_execStage (inp : Inputs) (s : Stage) (g g' : Graph)
    (hEx : execStage inp g s = .ok g') : presv g g' := by
  cases s with
  | constraintFor k =>
    simp only [execStage] at hEx
    injection hEx with h
    subst h
    exact presv_set_uniqueness g (nodeSpec k).label
  | nodeLoad k =>
    simp only [execStage] at hEx
    exact presv_loadNodeRows (nodeSpec k) (specOK_nodeSpec k) _ g g' hEx
  | relLoad k =>
    simp only [execStage] at hEx
    injection hEx with h
    subst h
    exact presv_loadRelRows (relSpec k) _ g
  | inference =>
    simp only [execStage] at hEx
    injection hEx with h
    subst h
    exact presv_inferEmploys g

theorem presv_runStages (inp : Inputs) :
    ∀ (ss : List Stage) (g : Graph), presv g (runStages inp ss g).fst := by
  intro ss
  induction ss with
  | nil => intro g; exact presv_refl g
  | cons s t ih =>
    intro g
    rw [runStages]
    cases hEx : execStage inp g s with
    | error e => exact presv_refl g
    | ok g' => exact presv_trans (presv_execStage inp s g g' hEx) (ih g')


theorem lift_pat_keys (spec : NodeSpec) (r : Row) (pat : Props)
    (hlift : liftPattern (mergePatOf spec r) = some pat) :
    pat.map Prod.fst = "id" :: spec.attrProps.map Prod.fst := by
  rw [liftPattern_keys _ _ hlift, mergePatOf, List.map_cons, List.map_map]
  rfl

theorem stablePat_spec (spec : NodeSpec) (hOK : specOK spec) (r : Row) (pat : Props)
    (hlift : liftPattern (mergePatOf spec r) = some pat) :
    stablePat spec.label pat := by
  rcases hOK with ⟨hnv, _, _⟩ | ⟨hlab, hattr, _⟩
  · exact Or.inl hnv
  · right
    rw [lift_pat_keys spec r pat hlift, hattr]
    rfl

theorem pat_single_of_keys (pat : Props) (hk : pat.map Prod.fst = ["id"]) :
    ∃ v, pat = [("id", v)] := by
  cases pat with
  | nil => simp at hk
  | cons a t =>
    cases t with
    | nil =>
      have ha : a.fst = "id" := by simpa using hk
      exact ⟨a.snd, by rw [← ha]⟩
    | cons b t2 => simp at hk

theorem create_matches (spec : NodeSpec) (hOK : specOK spec) (r : Row) (pat : Props)
    (hlift : liftPattern (mergePatOf spec r) = some pat) :
    patMatches (applySets pat (setsOf spec r)) pat = true := by
  rcases hOK with ⟨_, hsp, hnd⟩ | ⟨hlab, hattr, hnoid⟩
  · have hs0 : setsOf spec r = [] := by rw [setsOf, hsp]; rfl
    rw [hs0]
    show patMatches pat pat = true
    apply patMatches_self
    rw [lift_pat_keys spec r pat hlift]
    exact hnd
  · have hk := lift_pat_keys spec r pat hlift
    rw [hattr] at hk
    obtain ⟨v, rfl⟩ := pat_single_of_keys pat (by simpa using hk)
    have hsets : ∀ kv ∈ setsOf spec r, (kv.fst == "id") = false := by
      intro kv hkv
      rcases List.mem_map.mp hkv with ⟨q, hq, rfl⟩
      exact hnoid q hq
    apply (patMatches_single_iff _ _ _).mpr
    rw [lookup_applySets_diff "id" _ _ hsets]
    exact lookupProp_cons_hit ("id", v) [] "id" (by simp)

theorem loadNodeRows_matches (spec : NodeSpec) (hOK : specOK spec) :
    ∀ (rows : List Row) (g g' : Graph),
      loadNodeRows spec rows g = .ok g' →
      ∀ r ∈ rows, ∃ pat, liftPattern (mergePatOf spec r) = some pat ∧
        stablePat spec.label pat ∧ anyNodeMatch g' spec.label pat = true := by
  intro rows
  induction rows with
  | nil => intro g g' _ r hr; cases hr
  | cons a rs ih =>
    intro g g' hok r hr
    rw [loadNodeRows] at hok
    cases hM : mergeNodeRow g spec a with
    | error e => rw [hM] at hok; cases hok
    | ok ga =>
      rw [hM] at hok
      rcases List.mem_cons.mp hr with rfl | hr'
      · obtain ⟨pat, hlift⟩ := mergeNodeRow_ok_lift g ga spec r hM
        have hstable := stablePat_spec spec hOK r pat hlift
        refine ⟨pat, hlift, hstable, ?_⟩
        have hga : anyNodeMatch ga spec.label pat = true := by
          rcases mergeNodeRow_ok_cases g ga spec r pat hlift hM with
            ⟨hmatch, heq⟩ | ⟨hmatch, hviol, heq⟩
          · subst heq
            exact (presv_mergeNodeRow g _ spec r hOK hM).1 spec.label pat hstable hmatch
          · subst heq
            show ((g.nodes ++ ([⟨g.nextId, spec.label, applySets pat (setsOf spec r)⟩] : List Node)).any
              (fun n => nodeMatches n spec.label pat)) = true
            rw [List.any_append]
            have hnew : nodeMatches (⟨g.nextId, spec.label, applySets pat (setsOf spec r)⟩ : Node)
                spec.label pat = true := by
              unfold nodeMatches
              rw [Bool.and_eq_true]
              exact ⟨by simp, create_matches spec hOK r pat hlift⟩
            simp [List.any_cons, hnew]
        exact (presv_loadNodeRows spec hOK rs ga g' hok).1 spec.label pat hstable hga
      · exact ih ga g' hok r hr'

theorem loadRelRows_edges (spec : RelSpec) :
    ∀ (rows : List Row) (g : Graph), ∀ r ∈ rows,
      ∀ a ∈ matchEndpoint g.nodes spec.fromLabel
          ((toIntegerOpt (getCol r spec.fromIdField)).map PropVal.int),
      ∀ b ∈ matchEndpoint g.nodes spec.toLabel
          ((toIntegerOpt (getCol r spec.toIdField)).map PropVal.int),
      (a, b, spec.relType) ∈ edgeKeys (loadRelRows spec rows g) := by
  intro rows
  induction rows with
  | nil => intro g r hr; cases hr
  | cons q rs ih =>
    intro g r hr a ha b hb
    rw [loadRelRows]
    rcases List.mem_cons.mp hr with rfl | hr'
    · have hkey : (a, b, spec.relType) ∈ edgeKeys (relRow g spec r) := by
        unfold relRow
        apply (mergeEdgeFan_keys _ _ _ _ _).mpr
        right
        exact ⟨(a, b), (mem_pairsOf _ _ _).mpr ⟨ha, hb⟩, rfl⟩
      exact (presv_loadRelRows spec rs (relRow g spec r)).2.1 _ hkey
    · have hn := (relRow_parts g spec q).1
      apply ih (relRow g spec q) r hr' a ?_ b ?_
      · rw [hn]; exact ha
      · rw [hn]; exact hb


theorem sim_anyNodeMatch (g2 g1 : Graph) (hsim : graphSim g2 g1)
    (label : String) (pat : Props) (hs : stablePat label pat)
    (hm : anyNodeMatch g1 label pat = true) : anyNodeMatch g2 label pat = true := by
  rcases List.any_eq_true.mp hm with ⟨n1, hn1, hnm⟩
  obtain ⟨n2, hn2, hsim2⟩ := forall2_mem_right hsim.2.1 n1 hn1
  apply List.any_eq_true.mpr
  refine ⟨n2, hn2, ?_⟩
  obtain ⟨hid, hlab, hprops, hlook⟩ := hsim2
  unfold nodeMatches at hnm ⊢
  rw [Bool.and_eq_true] at hnm ⊢
  have hl1 : n1.label = label := by simpa using hnm.1
  refine ⟨by rw [hlab]; exact hnm.1, ?_⟩
  rcases hs with hnv | hidp
  · have hp : n2.props = n1.props := hprops (by rw [hlab, hl1]; exact hnv)
    rw [hp]
    exact hnm.2
  · obtain ⟨v, rfl⟩ := pat_single_of_keys pat hidp
    apply (patMatches_single_iff _ _ _).mpr
    rw [hlook]
    exact (patMatches_single_iff _ _ _).mp hnm.2

theorem patMatches_single_eq (ps qs : Props) (k : String) (v : PropVal)
    (h : lookupProp ps k = lookupProp qs k) :
    patMatches ps [(k, v)] = patMatches qs [(k, v)] := by
  simp [patMatches, h]

theorem sim_matchEndpoint :
    ∀ (l2 : List Node) (l1 : List Node), List.Forall₂ nodeSim l2 l1 →
      ∀ (label : String) (v : PropVal),
        matchEndpoint l2 label (some v) = matchEndpoint l1 label (some v) := by
  intro l2
  induction l2 with
  | nil =>
    intro l1 h label v
    cases h
    rfl
  | cons a t ih =>
    intro l1 h label v
    cases h with
    | @cons _ b _ t1 hab htail =>
      obtain ⟨hid, hlab, _, hlook⟩ := hab
      rw [matchEndpoint, matchEndpoint, List.filter_cons, List.filter_cons]
      have hcond : nodeMatches a label [(endpointKeyProp, v)] =
          nodeMatches b label [(endpointKeyProp, v)] := by
        unfold nodeMatches
        rw [hlab, patMatches_single_eq a.props b.props endpointKeyProp v hlook]
      rw [hcond]
      have hrec : matchEndpoint t label (some v) = matchEndpoint t1 label (some v) :=
        ih t1 htail label v
      rw [matchEndpoint, matchEndpoint] at hrec
      cases hc : nodeMatches b label [(endpointKeyProp, v)]
      · rw [if_neg Bool.false_ne_true, if_neg Bool.false_ne_true]
        exact hrec
      · rw [if_pos rfl, if_pos rfl, List.map_cons, List.map_cons, hid, hrec]

theorem mergeNodeRow_eval (g : Graph) (spec : NodeSpec) (r : Row) (pat : Props)
    (hlift : liftPattern (mergePatOf spec r) = some pat) :
    mergeNodeRow g spec r =
      (if anyNodeMatch g spec.label pat then
        Except.ok { g with nodes := g.nodes.map (fun n =>
          if nodeMatches n spec.label pat then
            { n with props := applySets n.props (setsOf spec r) } else n) }
      else if violatesConstraint g spec.label pat then Except.error LoadErr.constraintViolation
      else Except.ok { g with nextId := g.nextId + 1,
                              nodes := g.nodes ++
                                [⟨g.nextId, spec.label, applySets pat (setsOf spec r)⟩] }) := by
  unfold mergeNodeRow
  rw [hlift]

theorem mergeNodeRow_noop_nonvisit (g : Graph) (spec : NodeSpec) (hsp : spec.setProps = [])
    (r : Row) (pat : Props) (hlift : liftPattern (mergePatOf spec r) = some pat)
    (hm : anyNodeMatch g spec.label pat = true) :
    mergeNodeRow g spec r = .ok g := by
  rw [mergeNodeRow_eval g spec r pat hlift, if_pos hm]
  have hs0 : setsOf spec r = [] := by rw [setsOf, hsp]; rfl
  have hmap : g.nodes.map (fun n => if nodeMatches n spec.label pat then
      { n with props := applySets n.props (setsOf spec r) } else n) = g.nodes := by
    apply map_id_of
    intro n _
    rw [hs0]
    cases hc : nodeMatches n spec.label pat <;> rfl
  rw [hmap]

theorem rerun_nonvisit_stage (spec : NodeSpec) (hsp : spec.setProps = []) :
    ∀ (rows : List Row) (g2 g1 : Graph), graphSim g2 g1 →
      (∀ r ∈ rows, ∃ pat, liftPattern (mergePatOf spec r) = some pat ∧
        stablePat spec.label pat ∧ anyNodeMatch g1 spec.label pat = true) →
      loadNodeRows spec rows g2 = .ok g2 := by
  intro rows
  induction rows with
  | nil => intro g2 g1 _ _; rfl
  | cons r rs ih =>
    intro g2 g1 hsim hfacts
    obtain ⟨pat, hlift, hstable, hm1⟩ := hfacts r (List.mem_cons_self _ _)
    have hm2 := sim_anyNodeMatch g2 g1 hsim spec.label pat hstable hm1
    have hM := mergeNodeRow_noop_nonvisit g2 spec hsp r pat hlift hm2
    rw [loadNodeRows, hM]
    exact ih g2 g1 hsim (fun q hq => hfacts q (List.mem_cons_of_mem _ hq))

theorem mergeNodeRow_visit_sim (g2 g1 : Graph) (r : Row) (pat : Props)
    (hsim : graphSim g2 g1)
    (hlift : liftPattern (mergePatOf visitSpec r) = some pat)
    (hstable : stablePat "Visit" pat)
    (hm1 : anyNodeMatch g1 "Visit" pat = true) :
    ∃ g2', mergeNodeRow g2 visitSpec r = .ok g2' ∧ graphSim g2' g1 := by
  have hm2 : anyNodeMatch g2 visitSpec.label pat = true :=
    sim_anyNodeMatch g2 g1 hsim visitSpec.label pat hstable hm1
  refine ⟨_, by rw [mergeNodeRow_eval g2 visitSpec r pat hlift, if_pos hm2], ?_⟩
  obtain ⟨hnext, hnodes, hedges, hcons⟩ := hsim
  refine ⟨hnext, ?_, hedges, hcons⟩
  apply forall2_map_left
  · intro a b hab
    obtain ⟨hid, hlab, hprops, hlook⟩ := hab
    cases hc : nodeMatches a visitSpec.label pat
    · rw [if_neg Bool.false_ne_true]
      exact ⟨hid, hlab, hprops, hlook⟩
    · rw [if_pos rfl]
      have halab : a.label = "Visit" := by
        unfold nodeMatches at hc
        rw [Bool.and_eq_true] at hc
        simpa using hc.1
      have hsets : ∀ kv ∈ setsOf visitSpec r, (kv.fst == "id") = false := by
        intro kv hkv
        rcases List.mem_map.mp hkv with ⟨q, hq, rfl⟩
        have hq2 : ∀ q2 ∈ visitSpec.setProps, (q2.fst == "id") = false := by decide
        exact hq2 q hq
      refine ⟨hid, hlab, fun hne => absurd halab hne, ?_⟩
      show lookupProp (applySets a.props (setsOf visitSpec r)) "id" = lookupProp b.props "id"
      rw [lookup_applySets_diff "id" _ _ hsets, hlook]
  · exact hnodes

theorem rerun_visit_stage :
    ∀ (rows : List Row) (g2 g1 : Graph), graphSim g2 g1 →
      (∀ r ∈ rows, ∃ pat, liftPattern (mergePatOf visitSpec r) = some pat ∧
        stablePat "Visit" pat ∧ anyNodeMatch g1 "Visit" pat = true) →
      ∃ g2', loadNodeRows visitSpec rows g2 = .ok g2' ∧ graphSim g2' g1 := by
  intro rows
  induction rows with
  | nil => intro g2 g1 hsim _; exact ⟨g2, rfl, hsim⟩
  | cons r rs ih =>
    intro g2 g1 hsim hfacts
    obtain ⟨pat, hlift, hstable, hm1⟩ := hfacts r (List.mem_cons_self _ _)
    obtain ⟨g2a, hM, hsima⟩ := mergeNodeRow_visit_sim g2 g1 r pat hsim hlift hstable hm1
    obtain ⟨g2', hload, hsim'⟩ := ih g2a g1 hsima (fun q hq => hfacts q (List.mem_cons_of_mem _ hq))
    refine ⟨g2', ?_, hsim'⟩
    rw [loadNodeRows, hM]
    exact hload

theorem mergeEdgePair_samekeys (g : Graph) (t : String) (a b : Nat)
    (sets : List (String × Option PropVal)) (h : (a, b, t) ∈ edgeKeys g) :
    (mergeEdgePair g t a b sets).edges.map edgeKey = g.edges.map edgeKey ∧
    (mergeEdgePair g t a b sets).nodes = g.nodes ∧
    (mergeEdgePair g t a b sets).nextId = g.nextId ∧
    (mergeEdgePair g t a b sets).constraints = g.constraints := by
  obtain ⟨hn, hx, hc⟩ := mergeEdgePair_parts g t a b sets
  refine ⟨?_, hn, hx, hc⟩
  unfold mergeEdgePair
  rw [if_pos ((anyKey_iff_mem g a b t).mpr h)]
  exact edgeKeys_map_update g.edges _ (fun e => by cases hc2 : edgeKeyIs e a b t <;> rfl)

theorem mergeEdgeFan_samekeys :
    ∀ (l : List (Nat × Nat)) (g : Graph) (t : String) (sets : List (String × Option PropVal)),
      (∀ ab ∈ l, (ab.fst, ab.snd, t) ∈ edgeKeys g) →
      (mergeEdgeFan t sets g l).edges.map edgeKey = g.edges.map edgeKey ∧
      (mergeEdgeFan t sets g l).nodes = g.nodes ∧
      (mergeEdgeFan t sets g l).nextId = g.nextId ∧
      (mergeEdgeFan t sets g l).constraints = g.constraints := by
  intro l
  induction l with
  | nil => intro g t sets _; exact ⟨rfl, rfl, rfl, rfl⟩
  | cons ab rest ih =>
    intro g t sets hall
    rw [mergeEdgeFan]
    have h0 := mergeEdgePair_samekeys g t ab.fst ab.snd sets (hall ab (List.mem_cons_self _ _))
    have hrest := ih (mergeEdgePair g t ab.fst ab.snd sets) t sets (fun q hq => by
      have hm := hall q (List.mem_cons_of_mem _ hq)
      show (q.fst, q.snd, t) ∈ (mergeEdgePair g t ab.fst ab.snd sets).edges.map edgeKey
      rw [h0.1]
      exact hm)
    exact ⟨hrest.1.trans h0.1, hrest.2.1.trans h0.2.1, hrest.2.2.1.trans h0.2.2.1,
           hrest.2.2.2.trans h0.2.2.2⟩

theorem rerun_relRow (g2 g1 : Graph) (spec : RelSpec) (r : Row)
    (hsim : graphSim g2 g1)
    (hfact : ∀ a ∈ matchEndpoint g1.nodes spec.fromLabel
        ((toIntegerOpt (getCol r spec.fromIdField)).map PropVal.int),
      ∀ b ∈ matchEndpoint g1.nodes spec.toLabel
        ((toIntegerOpt (getCol r spec.toIdField)).map PropVal.int),
      (a, b, spec.relType) ∈ edgeKeys g1) :
    graphSim (relRow g2 spec r) g1 := by
  obtain ⟨hnext, hnodes, hedges, hcons⟩ := hsim
  have hfromeq : matchEndpoint g2.nodes spec.fromLabel
      ((toIntegerOpt (getCol r spec.fromIdField)).map PropVal.int) =
    matchEndpoint g1.nodes spec.fromLabel
      ((toIntegerOpt (getCol r spec.fromIdField)).map PropVal.int) := by
    cases hvo : (toIntegerOpt (getCol r spec.fromIdField)).map PropVal.int
    · rfl
    · exact sim_matchEndpoint g2.nodes g1.nodes hnodes spec.fromLabel _
  have htoeq : matchEndpoint g2.nodes spec.toLabel
      ((toIntegerOpt (getCol r spec.toIdField)).map PropVal.int) =
    matchEndpoint g1.nodes spec.toLabel
      ((toIntegerOpt (getCol r spec.toIdField)).map PropVal.int) := by
    cases hvo : (toIntegerOpt (getCol r spec.toIdField)).map PropVal.int
    · rfl
    · exact sim_matchEndpoint g2.nodes g1.nodes hnodes spec.toLabel _
  have hall : ∀ ab ∈ pairsOf
      (matchEndpoint g2.nodes spec.fromLabel
        ((toIntegerOpt (getCol r spec.fromIdField)).map PropVal.int))
      (matchEndpoint g2.nodes spec.toLabel
        ((toIntegerOpt (getCol r spec.toIdField)).map PropVal.int)),
      (ab.fst, ab.snd, spec.relType) ∈ edgeKeys g2 := by
    intro ab hab
    rw [mem_pairsOf] at hab
    have hk := hfact ab.fst (hfromeq ▸ hab.1) ab.snd (htoeq ▸ hab.2)
    show (ab.fst, ab.snd, spec.relType) ∈ g2.edges.map edgeKey
    rw [hedges]
    exact hk
  have h := mergeEdgeFan_samekeys _ g2 spec.relType
    (spec.setProps.map (fun kf => (kf.fst, kf.snd r))) hall
  refine ⟨h.2.2.1.trans hnext, ?_, h.1.trans hedges, h.2.2.2.trans hcons⟩
  rw [show (relRow g2 spec r).nodes = g2.nodes from h.2.1]
  exact hnodes

theorem rerun_rel_stage (spec : RelSpec) :
    ∀ (rows : List Row) (g2 g1 : Graph), graphSim g2 g1 →
      (∀ r ∈ rows,
        ∀ a ∈ matchEndpoint g1.nodes spec.fromLabel
            ((toIntegerOpt (getCol r spec.fromIdField)).map PropVal.int),
        ∀ b ∈ matchEndpoint g1.nodes spec.toLabel
            ((toIntegerOpt (getCol r spec.toIdField)).map PropVal.int),
        (a, b, spec.relType) ∈ edgeKeys g1) →
      graphSim (loadRelRows spec rows g2) g1 := by
  intro rows
  induction rows with
  | nil => intro g2 g1 hsim _; exact hsim
  | cons r rs ih =>
    intro g2 g1 hsim hfacts
    rw [loadRelRows]
    exact ih (relRow g2 spec r) g1
      (rerun_relRow g2 g1 spec r hsim (hfacts r (List.mem_cons_self _ _)))
      (fun q hq => hfacts q (List.mem_cons_of_mem _ hq))

theorem rerun_inference (g2 g1 : Graph) (hsim : graphSim g2 g1)
    (hall : ∀ p h : Node, p ∈ g1.nodes → h ∈ g1.nodes → p.label = "Physician" →
      h.label = "Hospital" → employsCond p h = true →
      (p.nodeId, h.nodeId, "EMPLOYS") ∈ edgeKeys g1) :
    inferEmploys g2 = g2 := by
  show inferSteps g2 (nodePairs (g2.nodes.filter (fun n => n.label == "Physician"))
    (g2.nodes.filter (fun n => n.label == "Hospital"))) = g2
  apply inferSteps_noop
  intro ph hmem hcond
  rw [mem_nodePairs] at hmem
  rcases List.mem_filter.mp hmem.1 with ⟨hp2, hplab⟩
  rcases List.mem_filter.mp hmem.2 with ⟨hh2, hhlab⟩
  obtain ⟨p1, hp1, hsimp⟩ := forall2_mem_left hsim.2.1 ph.fst hp2
  obtain ⟨h1, hh1, hsimh⟩ := forall2_mem_left hsim.2.1 ph.snd hh2
  obtain ⟨hidp, hlabp, _, hlookp⟩ := hsimp
  obtain ⟨hidh, hlabh, _, hlookh⟩ := hsimh
  have hcond1 : employsCond p1 h1 = true := by
    unfold employsCond at hcond ⊢
    rw [← hlookp, ← hlookh]
    exact hcond
  have hkey := hall p1 h1 hp1 hh1 (by rw [← hlabp]; simpa using hplab)
    (by rw [← hlabh]; simpa using hhlab) hcond1
  show (ph.fst.nodeId, ph.snd.nodeId, "EMPLOYS") ∈ g2.edges.map edgeKey
  rw [hsim.2.2.1, hidp, hidh]
  exact hkey


theorem runStages_cons_ok (inp : Inputs) (s : Stage) (ss : List Stage) (g g' : Graph)
    (hEx : execStage inp g s = .ok g') :
    runStages inp (s :: ss) g = runStages inp ss g' := by
  rw [runStages, hEx]

theorem runStages_cons_split (inp : Inputs) (s : Stage) (ss : List Stage) (g g1 : Graph)
    (h : runStages inp (s :: ss) g = (g1, none)) :
    ∃ g', execStage inp g s = .ok g' ∧ runStages inp ss g' = (g1, none) := by
  rw [runStages] at h
  cases hEx : execStage inp g s with
  | error e =>
    rw [hEx] at h
    have h' : (g, some e) = (g1, (none : Option LoadErr)) := h
    injection h' with ha hb
    exact Option.noConfusion hb
  | ok g' =>
    rw [hEx] at h
    exact ⟨g', rfl, h⟩

theorem sim_nodeCount : ∀ (l2 : List Node) (l1 : List Node), List.Forall₂ nodeSim l2 l1 →
    ∀ label : String, (l2.filter (fun n => n.label == label)).length =
      (l1.filter (fun n => n.label == label)).length := by
  intro l2
  induction l2 with
  | nil =>
    intro l1 h label
    cases h
    rfl
  | cons a t ih =>
    intro l1 h label
    cases h with
    | @cons _ b _ t1 hab htail =>
      rw [List.filter_cons, List.filter_cons]
      rw [show (b.label == label) = (a.label == label) from by rw [hab.2.1]]
      cases hc : a.label == label
      · rw [if_neg Bool.false_ne_true, if_neg Bool.false_ne_true]
        exact ih t1 htail label
      · rw [if_pos rfl, if_pos rfl, List.length_cons, List.length_cons, ih t1 htail label]

theorem filter_length_map {α β : Type} (f : α → β) (p : β → Bool) :
    ∀ l : List α, ((l.map f).filter p).length = (l.filter (fun a => p (f a))).length := by
  intro l
  induction l with
  | nil => rfl
  | cons a t ih =>
    rw [List.map_cons, List.filter_cons, List.filter_cons]
    cases hc : p (f a)
    · rw [if_neg Bool.false_ne_true, if_neg Bool.false_ne_true]
      exact ih
    · rw [if_pos rfl, if_pos rfl, List.length_cons, List.length_cons, ih]

theorem run1_facts (inp : Inputs) (g1 : Graph)
    (h1 : runPipeline inp emptyGraph = (g1, none)) :
    (∀ k : NodeKind, ∀ r ∈ nodeCsv k inp, ∃ pat,
        liftPattern (mergePatOf (nodeSpec k) r) = some pat ∧
        stablePat (nodeSpec k).label pat ∧ anyNodeMatch g1 (nodeSpec k).label pat = true) ∧
    (∀ j : RelKind, ∀ r ∈ relCsv j inp,
        ∀ a ∈ matchEndpoint g1.nodes (relSpec j).fromLabel
            ((toIntegerOpt (getCol r (relSpec j).fromIdField)).map PropVal.int),
        ∀ b ∈ matchEndpoint g1.nodes (relSpec j).toLabel
            ((toIntegerOpt (getCol r (relSpec j).toIdField)).map PropVal.int),
        (a, b, (relSpec j).relType) ∈ edgeKeys g1) ∧
    (∀ p h : Node, p ∈ g1.nodes → h ∈ g1.nodes → p.label = "Physician" →
        h.label = "Hospital" → employsCond p h = true →
        (p.nodeId, h.nodeId, "EMPLOYS") ∈ edgeKeys g1) ∧
    (∀ k : NodeKind, ((nodeSpec k).label, "id") ∈ g1.constraints) := by
  have hsplit : runPipeline inp emptyGraph = runStages inp dataStages (gcAfter emptyGraph) := by
    rw [runPipeline, show pipelineOrder = constraintStages ++ dataStages from rfl,
        runStages_append]
    rfl
  rw [hsplit, dataStages] at h1
  obtain ⟨gH, hH, h1⟩ := runStages_cons_split inp _ _ _ _ h1
  obtain ⟨gPy, hPy, h1⟩ := runStages_cons_split inp _ _ _ _ h1
  obtain ⟨gPh, hPh, h1⟩ := runStages_cons_split inp _ _ _ _ h1
  obtain ⟨gPa, hPa, h1⟩ := runStages_cons_split inp _ _ _ _ h1
  obtain ⟨gV, hV, h1⟩ := runStages_cons_split inp _ _ _ _ h1
  obtain ⟨gRv, hRv, h1⟩ := runStages_cons_split inp _ _ _ _ h1
  obtain ⟨gE1, hE1, h1⟩ := runStages_cons_split inp _ _ _ _ h1
  obtain ⟨gE2, hE2, h1⟩ := runStages_cons_split inp _ _ _ _ h1
  obtain ⟨gE3, hE3, h1⟩ := runStages_cons_split inp _ _ _ _ h1
  obtain ⟨gE4, hE4, h1⟩ := runStages_cons_split inp _ _ _ _ h1
  obtain ⟨gE5, hE5, h1⟩ := runStages_cons_split inp _ _ _ _ h1
  obtain ⟨gI, hI, h1⟩ := runStages_cons_split inp _ _ _ _ h1
  rw [runStages] at h1
  injection h1 with hfin hnone
  have hHl : loadNodeRows (nodeSpec NodeKind.Hospital) (nodeCsv NodeKind.Hospital inp)
      (gcAfter emptyGraph) = .ok gH := hH
  have hPyl : loadNodeRows (nodeSpec NodeKind.Payer) (nodeCsv NodeKind.Payer inp)
      gH = .ok gPy := hPy
  have hPhl : loadNodeRows (nodeSpec NodeKind.Physician) (nodeCsv NodeKind.Physician inp)
      gPy = .ok gPh := hPh
  have hPal : loadNodeRows (nodeSpec NodeKind.Patient) (nodeCsv NodeKind.Patient inp)
      gPh = .ok gPa := hPa
  have hVl : loadNodeRows (nodeSpec NodeKind.Visit) (nodeCsv NodeKind.Visit inp)
      gPa = .ok gV := hV
  have hRvl : loadNodeRows (nodeSpec NodeKind.Review) (nodeCsv NodeKind.Review inp)
      gV = .ok gRv := hRv
  have hE1l : loadRelRows (relSpec RelKind.HAS) (relCsv RelKind.HAS inp) gRv = gE1 :=
    Except.ok.inj (show (Except.ok (loadRelRows (relSpec RelKind.HAS)
        (relCsv RelKind.HAS inp) gRv) : Except LoadErr Graph) = Except.ok gE1 from hE1)
  have hE2l : loadRelRows (relSpec RelKind.AT) (relCsv RelKind.AT inp) gE1 = gE2 :=
    Except.ok.inj (show (Except.ok (loadRelRows (relSpec RelKind.AT)
        (relCsv RelKind.AT inp) gE1) : Except LoadErr Graph) = Except.ok gE2 from hE2)
  have hE3l : loadRelRows (relSpec RelKind.TREATS) (relCsv RelKind.TREATS inp) gE2 = gE3 :=
    Except.ok.inj (show (Except.ok (loadRelRows (relSpec RelKind.TREATS)
        (relCsv RelKind.TREATS inp) gE2) : Except LoadErr Graph) = Except.ok gE3 from hE3)
  have hE4l : loadRelRows (relSpec RelKind.COVERED_BY) (relCsv RelKind.COVERED_BY inp)
      gE3 = gE4 :=
    Except.ok.inj (show (Except.ok (loadRelRows (relSpec RelKind.COVERED_BY)
        (relCsv RelKind.COVERED_BY inp) gE3) : Except LoadErr Graph) = Except.ok gE4 from hE4)
  have hE5l : loadRelRows (relSpec RelKind.WRITES) (relCsv RelKind.WRITES inp) gE4 = gE5 :=
    Except.ok.inj (show (Except.ok (loadRelRows (relSpec RelKind.WRITES)
        (relCsv RelKind.WRITES inp) gE4) : Except LoadErr Graph) = Except.ok gE5 from hE5)
  have hIl : inferEmploys gE5 = gI :=
    Except.ok.inj (show (Except.ok (inferEmploys gE5) : Except LoadErr Graph)
      = Except.ok gI from hI)
  have pH := presv_loadNodeRows (nodeSpec NodeKind.Hospital)
    (specOK_nodeSpec NodeKind.Hospital) _ _ _ hHl
  have pPy := presv_loadNodeRows (nodeSpec NodeKind.Payer)
    (specOK_nodeSpec NodeKind.Payer) _ _ _ hPyl
  have pPh := presv_loadNodeRows (nodeSpec NodeKind.Physician)
    (specOK_nodeSpec NodeKind.Physician) _ _ _ hPhl
  have pPa := presv_loadNodeRows (nodeSpec NodeKind.Patient)
    (specOK_nodeSpec NodeKind.Patient) _ _ _ hPal
  have pV := presv_loadNodeRows (nodeSpec NodeKind.Visit)
    (specOK_nodeSpec NodeKind.Visit) _ _ _ hVl
  have pRv := presv_loadNodeRows (nodeSpec NodeKind.Review)
    (specOK_nodeSpec NodeKind.Review) _ _ _ hRvl
  have pE1 : presv gRv gE1 := by rw [← hE1l]; exact presv_loadRelRows _ _ _
  have pE2 : presv gE1 gE2 := by rw [← hE2l]; exact presv_loadRelRows _ _ _
  have pE3 : presv gE2 gE3 := by rw [← hE3l]; exact presv_loadRelRows _ _ _
  have pE4 : presv gE3 gE4 := by rw [← hE4l]; exact presv_loadRelRows _ _ _
  have pE5 : presv gE4 gE5 := by rw [← hE5l]; exact presv_loadRelRows _ _ _
  have q5 : presv gE5 g1 := by rw [← hfin, ← hIl]; exact presv_inferEmploys gE5
  have q4 : presv gE4 g1 := presv_trans pE5 q5
  have q3 : presv gE3 g1 := presv_trans pE4 q4
  have q2 : presv gE2 g1 := presv_trans pE3 q3
  have qE1 : presv gE1 g1 := presv_trans pE2 q2
  have qRv : presv gRv g1 := presv_trans pE1 qE1
  have qV : presv gV g1 := presv_trans pRv qRv
  have qPa : presv gPa g1 := presv_trans pV qV
  have qPh : presv gPh g1 := presv_trans pPa qPa
  have qPy : presv gPy g1 := presv_trans pPh qPh
  have qH : presv gH g1 := presv_trans pPy qPy
  have q0 : presv (gcAfter emptyGraph) g1 := presv_trans pH qH
  have e1 : gE1.nodes = gRv.nodes := by rw [← hE1l]; exact (loadRelRows_parts _ _ _).1
  have e2 : gE2.nodes = gE1.nodes := by rw [← hE2l]; exact (loadRelRows_parts _ _ _).1
  have e3 : gE3.nodes = gE2.nodes := by rw [← hE3l]; exact (loadRelRows_parts _ _ _).1
  have e4 : gE4.nodes = gE3.nodes := by rw [← hE4l]; exact (loadRelRows_parts _ _ _).1
  have e5 : gE5.nodes = gE4.nodes := by rw [← hE5l]; exact (loadRelRows_parts _ _ _).1
  have n1 : g1.nodes = gE5.nodes := by rw [← hfin, ← hIl]; exact (inferEmploys_parts gE5).1
  have n2 : g1.nodes = gE4.nodes := n1.trans e5
  have n3 : g1.nodes = gE3.nodes := n2.trans e4
  have n4 : g1.nodes = gE2.nodes := n3.trans e3
  have n5 : g1.nodes = gE1.nodes := n4.trans e2
  have n6 : g1.nodes = gRv.nodes := n5.trans e1
  refine ⟨?_, ?_, ?_, ?_⟩
  · intro k r hr
    cases k
    · obtain ⟨pat, hlift, hst, hm⟩ := loadNodeRows_matches (nodeSpec NodeKind.Hospital)
        (specOK_nodeSpec NodeKind.Hospital) _ _ _ hHl r hr
      exact ⟨pat, hlift, hst, qH.1 _ _ hst hm⟩
    · obtain ⟨pat, hlift, hst, hm⟩ := loadNodeRows_matches (nodeSpec NodeKind.Payer)
        (specOK_nodeSpec NodeKind.Payer) _ _ _ hPyl r hr
      exact ⟨pat, hlift, hst, qPy.1 _ _ hst hm⟩
    · obtain ⟨pat, hlift, hst, hm⟩ := loadNodeRows_matches (nodeSpec NodeKind.Physician)
        (specOK_nodeSpec NodeKind.Physician) _ _ _ hPhl r hr
      exact ⟨pat, hlift, hst, qPh.1 _ _ hst hm⟩
    · obtain ⟨pat, hlift, hst, hm⟩ := loadNodeRows_matches (nodeSpec NodeKind.Patient)
        (specOK_nodeSpec NodeKind.Patient) _ _ _ hPal r hr
      exact ⟨pat, hlift, hst, qPa.1 _ _ hst hm⟩
    · obtain ⟨pat, hlift, hst, hm⟩ := loadNodeRows_matches (nodeSpec NodeKind.Visit)
        (specOK_nodeSpec NodeKind.Visit) _ _ _ hVl r hr
      exact ⟨pat, hlift, hst, qV.1 _ _ hst hm⟩
    · obtain ⟨pat, hlift, hst, hm⟩ := loadNodeRows_matches (nodeSpec NodeKind.Review)
        (specOK_nodeSpec NodeKind.Review) _ _ _ hRvl r hr
      exact ⟨pat, hlift, hst, qRv.1 _ _ hst hm⟩
  · intro j r hr a ha b hb
    cases j
    · have ha' : a ∈ matchEndpoint gRv.nodes (relSpec RelKind.HAS).fromLabel
          ((toIntegerOpt (getCol r (relSpec RelKind.HAS).fromIdField)).map PropVal.int) := by
        rw [← n6]; exact ha
      have hb' : b ∈ matchEndpoint gRv.nodes (relSpec RelKind.HAS).toLabel
          ((toIntegerOpt (getCol r (relSpec RelKind.HAS).toIdField)).map PropVal.int) := by
        rw [← n6]; exact hb
      have hkey := loadRelRows_edges (relSpec RelKind.HAS) (relCsv RelKind.HAS inp)
        gRv r hr a ha' b hb'
      rw [hE1l] at hkey
      exact qE1.2.1 _ hkey
    · have ha' : a ∈ matchEndpoint gE1.nodes (relSpec RelKind.AT).fromLabel
          ((toIntegerOpt (getCol r (relSpec RelKind.AT).fromIdField)).map PropVal.int) := by
        rw [← n5]; exact ha
      have hb' : b ∈ matchEndpoint gE1.nodes (relSpec RelKind.AT).toLabel
          ((toIntegerOpt (getCol r (relSpec RelKind.AT).toIdField)).map PropVal.int) := by
        rw [← n5]; exact hb
      have hkey := loadRelRows_edges (relSpec RelKind.AT) (relCsv RelKind.AT inp)
        gE1 r hr a ha' b hb'
      rw [hE2l] at hkey
      exact q2.2.1 _ hkey
    · have ha' : a ∈ matchEndpoint gE2.nodes (relSpec RelKind.TREATS).fromLabel
          ((toIntegerOpt (getCol r (relSpec RelKind.TREATS).fromIdField)).map PropVal.int) := by
        rw [← n4]; exact ha
      have hb' : b ∈ matchEndpoint gE2.nodes (relSpec RelKind.TREATS).toLabel
          ((toIntegerOpt (getCol r (relSpec RelKind.TREATS).toIdField)).map PropVal.int) := by
        rw [← n4]; exact hb
      have hkey := loadRelRows_edges (relSpec RelKind.TREATS) (relCsv RelKind.TREATS inp)
        gE2 r hr a ha' b hb'
      rw [hE3l] at hkey
      exact q3.2.1 _ hkey
    · have ha' : a ∈ matchEndpoint gE3.nodes (relSpec RelKind.COVERED_BY).fromLabel
          ((toIntegerOpt (getCol r (relSpec RelKind.COVERED_BY).fromIdField)).map
            PropVal.int) := by
        rw [← n3]; exact ha
      have hb' : b ∈ matchEndpoint gE3.nodes (relSpec RelKind.COVERED_BY).toLabel
          ((toIntegerOpt (getCol r (relSpec RelKind.COVERED_BY).toIdField)).map
            PropVal.int) := by
        rw [← n3]; exact hb
      have hkey := loadRelRows_edges (relSpec RelKind.COVERED_BY)
        (relCsv RelKind.COVERED_BY inp) gE3 r hr a ha' b hb'
      rw [hE4l] at hkey
      exact q4.2.1 _ hkey
    · have ha' : a ∈ matchEndpoint gE4.nodes (relSpec RelKind.WRITES).fromLabel
          ((toIntegerOpt (getCol r (relSpec RelKind.WRITES).fromIdField)).map PropVal.int) := by
        rw [← n2]; exact ha
      have hb' : b ∈ matchEndpoint gE4.nodes (relSpec RelKind.WRITES).toLabel
          ((toIntegerOpt (getCol r (relSpec RelKind.WRITES).toIdField)).map PropVal.int) := by
        rw [← n2]; exact hb
      have hkey := loadRelRows_edges (relSpec RelKind.WRITES) (relCsv RelKind.WRITES inp)
        gE4 r hr a ha' b hb'
      rw [hE5l] at hkey
      exact q5.2.1 _ hkey
  · intro p h hp hh hplab hhlab hcond
    have hp5 : p ∈ gE5.nodes := by rw [← n1]; exact hp
    have hh5 : h ∈ gE5.nodes := by rw [← n1]; exact hh
    have hmem : (p, h) ∈ nodePairs (gE5.nodes.filter (fun n => n.label == "Physician"))
        (gE5.nodes.filter (fun n => n.label == "Hospital")) := by
      apply (mem_nodePairs _ _ _).mpr
      exact ⟨List.mem_filter.mpr ⟨hp5, by simp [hplab]⟩,
             List.mem_filter.mpr ⟨hh5, by simp [hhlab]⟩⟩
    have hkey : (p.nodeId, h.nodeId, "EMPLOYS") ∈ edgeKeys (inferSteps gE5
        (nodePairs (gE5.nodes.filter (fun n => n.label == "Physician"))
          (gE5.nodes.filter (fun n => n.label == "Hospital")))) :=
      (inferSteps_keys _ _ _).mpr (Or.inr ⟨(p, h), hmem, hcond, rfl⟩)
    have hkey2 : (p.nodeId, h.nodeId, "EMPLOYS") ∈ edgeKeys (inferEmploys gE5) := hkey
    rw [hIl, hfin] at hkey2
    exact hkey2
  · intro k
    exact q0.2.2 _ (gcAfter_mem emptyGraph k)


theorem rerun_pipeline (inp : Inputs) (g1 : Graph)
    (hN : ∀ k : NodeKind, ∀ r ∈ nodeCsv k inp, ∃ pat,
        liftPattern (mergePatOf (nodeSpec k) r) = some pat ∧
        stablePat (nodeSpec k).label pat ∧ anyNodeMatch g1 (nodeSpec k).label pat = true)
    (hR : ∀ j : RelKind, ∀ r ∈ relCsv j inp,
        ∀ a ∈ matchEndpoint g1.nodes (relSpec j).fromLabel
            ((toIntegerOpt (getCol r (relSpec j).fromIdField)).map PropVal.int),
        ∀ b ∈ matchEndpoint g1.nodes (relSpec j).toLabel
            ((toIntegerOpt (getCol r (relSpec j).toIdField)).map PropVal.int),
        (a, b, (relSpec j).relType) ∈ edgeKeys g1)
    (hE : ∀ p h : Node, p ∈ g1.nodes → h ∈ g1.nodes → p.label = "Physician" →
        h.label = "Hospital" → employsCond p h = true →
        (p.nodeId, h.nodeId, "EMPLOYS") ∈ edgeKeys g1)
    (hC : ∀ k : NodeKind, ((nodeSpec k).label, "id") ∈ g1.constraints) :
    ∃ g2, runPipeline inp g1 = (g2, none) ∧ graphSim g2 g1 := by
  have hgc : gcAfter g1 = g1 := by
    rw [gcAfter,
        set_uniqueness_constraints_noop g1 "Hospital" (hC NodeKind.Hospital),
        set_uniqueness_constraints_noop g1 "Payer" (hC NodeKind.Payer),
        set_uniqueness_constraints_noop g1 "Physician" (hC NodeKind.Physician),
        set_uniqueness_constraints_noop g1 "Patient" (hC NodeKind.Patient),
        set_uniqueness_constraints_noop g1 "Visit" (hC NodeKind.Visit),
        set_uniqueness_constraints_noop g1 "Review" (hC NodeKind.Review)]
  have relstep : ∀ (j : RelKind) (g2 : Graph), graphSim g2 g1 →
      graphSim (loadRelRows (relSpec j) (relCsv j inp) g2) g1 :=
    fun j g2 hs => rerun_rel_stage (relSpec j) (relCsv j inp) g2 g1 hs (hR j)
  have tail : ∀ g2 : Graph, graphSim g2 g1 →
      ∃ g3, runStages inp [Stage.relLoad RelKind.HAS, Stage.relLoad RelKind.AT,
          Stage.relLoad RelKind.TREATS, Stage.relLoad RelKind.COVERED_BY,
          Stage.relLoad RelKind.WRITES, Stage.inference] g2 = (g3, none) ∧
        graphSim g3 g1 := by
    intro g2 hs
    have h1s := relstep RelKind.HAS g2 hs
    have h2s := relstep RelKind.AT _ h1s
    have h3s := relstep RelKind.TREATS _ h2s
    have h4s := relstep RelKind.COVERED_BY _ h3s
    have h5s := relstep RelKind.WRITES _ h4s
    refine ⟨_, rfl, ?_⟩
    rw [rerun_inference _ g1 h5s hE]
    exact h5s
  have hH2 : execStage inp g1 (Stage.nodeLoad NodeKind.Hospital) = .ok g1 :=
    rerun_nonvisit_stage (nodeSpec NodeKind.Hospital) rfl (nodeCsv NodeKind.Hospital inp)
      g1 g1 (graphSim_refl g1) (hN NodeKind.Hospital)
  have hPy2 : execStage inp g1 (Stage.nodeLoad NodeKind.Payer) = .ok g1 :=
    rerun_nonvisit_stage (nodeSpec NodeKind.Payer) rfl (nodeCsv NodeKind.Payer inp)
      g1 g1 (graphSim_refl g1) (hN NodeKind.Payer)
  have hPh2 : execStage inp g1 (Stage.nodeLoad NodeKind.Physician) = .ok g1 :=
    rerun_nonvisit_stage (nodeSpec NodeKind.Physician) rfl (nodeCsv NodeKind.Physician inp)
      g1 g1 (graphSim_refl g1) (hN NodeKind.Physician)
  have hPa2 : execStage inp g1 (Stage.nodeLoad NodeKind.Patient) = .ok g1 :=
    rerun_nonvisit_stage (nodeSpec NodeKind.Patient) rfl (nodeCsv NodeKind.Patient inp)
      g1 g1 (graphSim_refl g1) (hN NodeKind.Patient)
  obtain ⟨g2v, hV2, hsimv⟩ := rerun_visit_stage (nodeCsv NodeKind.Visit inp) g1 g1
    (graphSim_refl g1) (hN NodeKind.Visit)
  have hV2e : execStage inp g1 (Stage.nodeLoad NodeKind.Visit) = .ok g2v := hV2
  have hRv2 : execStage inp g2v (Stage.nodeLoad NodeKind.Review) = .ok g2v :=
    rerun_nonvisit_stage (nodeSpec NodeKind.Review) rfl (nodeCsv NodeKind.Review inp)
      g2v g1 hsimv (hN NodeKind.Review)
  have hdata : ∃ g2, runStages inp dataStages g1 = (g2, none) ∧ graphSim g2 g1 := by
    rw [dataStages]
    rw [runStages_cons_ok inp _ _ _ _ hH2, runStages_cons_ok inp _ _ _ _ hPy2,
        runStages_cons_ok inp _ _ _ _ hPh2, runStages_cons_ok inp _ _ _ _ hPa2,
        runStages_cons_ok inp _ _ _ _ hV2e, runStages_cons_ok inp _ _ _ _ hRv2]
    exact tail g2v hsimv
  obtain ⟨g2, hrun, hsim⟩ := hdata
  refine ⟨g2, ?_, hsim⟩
  rw [runPipeline, show pipelineOrder = constraintStages ++ dataStages from rfl,
      runStages_append]
  have hc6 : runStages inp constraintStages g1 = (gcAfter g1, none) := rfl
  rw [hc6, hgc]
  exact hrun


/-- C2: the full load is idempotent.  If a complete pipeline run from the empty
store succeeds with result store `g1`, then running the complete pipeline again
over the same inputs, now starting from `g1`, also succeeds, and its result
store has the same node count for every node kind, the same edge count for
every relationship kind, the same number of edges between every ordered
endpoint pair of every relationship kind (so the second run creates no
parallel duplicate edge), and the same list of (source, target, type) edge
keys as `g1`. -/
theorem full_load_idempotent (inp : Inputs) (g1 : Graph)
    (h1 : runPipeline inp emptyGraph = (g1, none)) :
    ∃ g2, runPipeline inp g1 = (g2, none) ∧
      (∀ label, nodeCount g2 label = nodeCount g1 label) ∧
      (∀ t, edgeCount g2 t = edgeCount g1 t) ∧
      (∀ a b t, countKey g2 a b t = countKey g1 a b t) ∧
      edgeKeys g2 = edgeKeys g1 := by
  obtain ⟨hN, hR, hE, hC⟩ := run1_facts inp g1 h1
  obtain ⟨g2, hrun, hsim⟩ := rerun_pipeline inp g1 hN hR hE hC
  have hk : g2.edges.map edgeKey = g1.edges.map edgeKey := hsim.2.2.1
  refine ⟨g2, hrun, ?_, ?_, ?_, hsim.2.2.1⟩
  · intro label
    exact sim_nodeCount g2.nodes g1.nodes hsim.2.1 label
  · intro t
    have h2 := filter_length_map edgeKey
      (fun k : Nat × Nat × String => k.snd.snd == t) g2.edges
    have h3 := filter_length_map edgeKey
      (fun k : Nat × Nat × String => k.snd.snd == t) g1.edges
    calc edgeCount g2 t
        = ((g2.edges.map edgeKey).filter
            (fun k : Nat × Nat × String => k.snd.snd == t)).length := h2.symm
      _ = ((g1.edges.map edgeKey).filter
            (fun k : Nat × Nat × String => k.snd.snd == t)).length := by rw [hk]
      _ = edgeCount g1 t := h3
  · intro a b t
    have h2 := filter_length_map edgeKey
      (fun k : Nat × Nat × String => k.fst == a && k.snd.fst == b && k.snd.snd == t) g2.edges
    have h3 := filter_length_map edgeKey
      (fun k : Nat × Nat × String => k.fst == a && k.snd.fst == b && k.snd.snd == t) g1.edges
    calc countKey g2 a b t
        = ((g2.edges.map edgeKey).filter
            (fun k : Nat × Nat × String =>
              k.fst == a && k.snd.fst == b && k.snd.snd == t)).length := h2.symm
      _ = ((g1.edges.map edgeKey).filter
            (fun k : Nat × Nat × String =>
              k.fst == a && k.snd.fst == b && k.snd.snd == t)).length := by rw [hk]
      _ = countKey g1 a b t := h3

theorem full_load_idempotent_witness :
    runPipeline emptyInputs emptyGraph = (constraintsOnlyGraph, none) ∧
    (∃ g2, runPipeline emptyInputs constraintsOnlyGraph = (g2, none) ∧
      (∀ label, nodeCount g2 label = nodeCount constraintsOnlyGraph label) ∧
      (∀ t, edgeCount g2 t = edgeCount constraintsOnlyGraph t) ∧
      (∀ a b t, countKey g2 a b t = countKey constraintsOnlyGraph a b t) ∧
      edgeKeys g2 = edgeKeys constraintsOnlyGraph) :=
  ⟨by decide, full_load_idempotent emptyInputs constraintsOnlyGraph (by decide)⟩

end Etl
